import Mathlib

set_option maxHeartbeats 1000000

/-! # PWC-Prep-Tool: application-date assignment core and batch-file QC

Shallow embedding of the application date/rate assignment algorithm
(src/pwctool/pwct_algo_functions.py and the `assign_application_dates`
loop of src/pwctool/pwct_algo_thread.py) and of the compliance validator
(src/pwctool/pwct_batchfile_qc.py).

Dates are modeled as integers: the signed day offset from 2021-01-01, so
the non-leap reference year 2021 occupies offsets 0..364.  Python
`datetime.date` arithmetic (timedelta addition and the year folds
`date(year=2021, month=d.month, day=d.day)`) is modeled on offsets; the
fold preserves month/day, which on offsets is the piecewise shift
`fold2021` below (2022/2023/2019 are non-leap so their segments shift by a
whole number of years; 2020 is a leap year, so the two sides of 2020-02-29
shift differently and 2020-02-29 itself has no 2021 counterpart: Python
raises ValueError there, modeled as `none`).

Missing numeric label fields (pd.NA / NaN): before scheduling the code
runs `ag_practices.replace(pd.NA, np.inf)`, so the scheduler compares
counters against +infinity; the QC path keeps NaN.  Caps are therefore
`Option ℚ`, with two comparison families:
`capLeQ`/`capLtQ`/`capEqQ` (scheduler view: `none` behaves like np.inf)
and `qcLe`/`qcLeT` (validator view: `none` behaves like NaN, every
comparison with it is False).

Amounts are modeled after the lbs/acre → kg/ha conversion, which the
batch-generation path (pwct_algo_thread.py lines 504-512) and the QC path
(prepare_apt) both apply with the same constant factor, so it cancels from
every claim.  The tolerances 0.001 and APP_AMT_THRESHOLD = 0.002 are
written as the rationals 1/1000 and 2/1000.

Floating-point arithmetic is modeled by exact rationals; all tolerance
constants appear explicitly in the source, and no claim is about rounding
of the float operations themselves.
-/



/-- Crop-lifecycle phase of an application date: the strings
"PreEmergence" / "PostEmergence" of the source. -/
inductive AppInterval where
  | pre
  | post
  deriving DecidableEq

/-- settings["DATE_PRIORITIZATION"]: the string "Max App. Rate", or anything
else meaning wettest-month prioritization. -/
inductive DatePrioritization where
  | maxRate
  | wettestMonth
  deriving DecidableEq

/-- x <= cap, where a missing cap is np.inf (scheduler view). -/
def capLeQ (x : ℚ) : Option ℚ → Bool
  | none => true
  | some c => decide (x ≤ c)

/-- x < cap, where a missing cap is np.inf (scheduler view). -/
def capLtQ (x : ℚ) : Option ℚ → Bool
  | none => true
  | some c => decide (x < c)

/-- x == cap, where a missing cap is np.inf (a finite counter never equals
np.inf, so the comparison is False). -/
def capEqQ (x : ℚ) : Option ℚ → Bool
  | none => false
  | some c => decide (x = c)

/-- Resolved rate-specific instruction window: the derived columns
`Rate{i}_instr_timeframe` ("Y"/"N"), `Rate{i}_instr_startdate`,
`Rate{i}_instr_enddate` produced by derive_instruction_date_restrictions
(both endpoints already folded into the reference year by that function). -/
structure InstrWindow where
  timeframeY : Bool
  startDate : Int
  endDate : Int
  deriving DecidableEq

/-- One rate tier of a label record (the `Rate{i}_*` columns of the
agronomic-practices row).  `maxAppRate = none` models the np.inf sentinel:
the tier does not exist.  `instr = none` models a missing
`Rate{i}_Instructions` string (np.inf after the replace), in which case no
window was derived. -/
structure RawTier where
  maxAppRate : Option ℚ
  maxNumApps : Option ℚ
  preMRI : Option Int
  postMRI : Option Int
  instr : Option InstrWindow
  deriving DecidableEq

/-- A label record (one agronomic-practices row) with its four rate tiers.
`emergence`/`harvest` are the scenario dates (reference-year offsets).
`phi = none` models a missing PHI cell: the batch-generation path runs
`ag_practices_table["PHI"].fillna(value=0)`, the QC path would raise on
int(NaN); the scheduler-side accessor below therefore defaults to 0 and
the validator model aborts. -/
structure AgPractices where
  emergence : Int
  harvest : Int
  maxAnnNumApps : Option ℚ
  maxAnnAmt : Option ℚ
  preMaxNumApps : Option ℚ
  preMaxAmt : Option ℚ
  postMaxNumApps : Option ℚ
  postMaxAmt : Option ℚ
  phi : Option Int
  t1 : RawTier
  t2 : RawTier
  t3 : RawTier
  t4 : RawTier
  deriving DecidableEq

def AgPractices.tier (ag : AgPractices) : Fin 4 → RawTier
  | 0 => ag.t1
  | 1 => ag.t2
  | 2 => ag.t3
  | 3 => ag.t4

def AgPractices.tiersList (ag : AgPractices) : List RawTier :=
  [ag.t1, ag.t2, ag.t3, ag.t4]

def AgPractices.ivMaxNumApps (ag : AgPractices) : AppInterval → Option ℚ
  | .pre => ag.preMaxNumApps
  | .post => ag.postMaxNumApps

def AgPractices.ivMaxAmt (ag : AgPractices) : AppInterval → Option ℚ
  | .pre => ag.preMaxAmt
  | .post => ag.postMaxAmt

/-- int(ag_practices["PHI"]); the batch-generation path has already run
fillna(0) on the PHI column. -/
def AgPractices.phiInt (ag : AgPractices) : Int := ag.phi.getD 0

/-- `Rate{i}_{interval}MRI` cell. -/
def RawTier.ivMRI (t : RawTier) : AppInterval → Option Int
  | .pre => t.preMRI
  | .post => t.postMRI

/-- int(ag_practices[f"{rate_id}_{interval}MRI"]).  The source only reads
this cell after establishing `interval in Rate{i}_ValidIntervals`, which by
construction of the valid-interval list means the cell is set; the default
0 is never reached on source-reachable paths. -/
def RawTier.mriFor (t : RawTier) (iv : AppInterval) : Int := (t.ivMRI iv).getD 0

/-- `Rate{i}_ValidIntervals`, derived in pwct_algo_thread.py lines 583-591:
an interval is valid for a tier exactly when that tier's MRI for the
interval is specified.  The source appends pd.NA when the list would be
empty (a length-1 list whose sole member is NA); the model keeps the empty
list and the two consumers below treat it the way the source behaves on
[pd.NA]. -/
def RawTier.validIntervals (t : RawTier) : List AppInterval :=
  (if t.preMRI.isSome then [AppInterval.pre] else [])
    ++ (if t.postMRI.isSome then [AppInterval.post] else [])

/-- Month/day-preserving fold of a real date (given as an offset from
2021-01-01) to the reference year 2021, i.e. the effect of
`date(year=2021, month=d.month, day=d.day)`.  Covers the years
2019..2023; `none` for 2020-02-29 (Python raises ValueError) and outside
the covered span (no source-reachable path leaves it for the MRI ranges
the scheduler invariants consider). -/
def fold2021 (d : Int) : Option Int :=
  if 0 ≤ d ∧ d ≤ 364 then some d
  else if 365 ≤ d ∧ d ≤ 729 then some (d - 365)
  else if 730 ≤ d ∧ d ≤ 1094 then some (d - 730)
  else if -306 ≤ d ∧ d ≤ -1 then some (d + 365)
  else if d = -307 then none
  else if -366 ≤ d ∧ d ≤ -308 then some (d + 366)
  else if -731 ≤ d ∧ d ≤ -367 then some (d + 731)
  else none

/-- Forward step of prepare_next_app: `current + timedelta(mri)`, folded to
the reference year when the raw sum crosses into a later year.  Every
source call site passes a current date lying in the reference year
(offsets 0..364), for which the source's `next.year > current.year` test
is exactly `365 ≤ current + mri`. -/
def nextForwardDate (d mri : Int) : Option Int :=
  if 365 ≤ d + mri then fold2021 (d + mri) else some (d + mri)

/-- Reverse step of get_next_reverse_date: `current - timedelta(mri)`,
folded when the difference drops into an earlier year (for reference-year
current dates, exactly `current - mri < 0`). -/
def nextReverseDate (d mri : Int) : Option Int :=
  if d - mri < 0 then fold2021 (d - mri) else some (d - mri)

/-- get_interval (pwct_algo_functions.py lines 95-118). -/
def getInterval (d : Int) (ag : AgPractices) : AppInterval :=
  if ag.emergence < ag.harvest then
    if ag.emergence ≤ d ∧ d ≤ ag.harvest then .post else .pre
  else
    if ag.harvest < d ∧ d < ag.emergence then .pre else .post

/-- meets_instruction_constraints (lines 520-563).  A missing instruction
string (np.inf after the NA replace) always satisfies the gate; otherwise
the resolved window is interpreted directly ("Y": must fall inside, "N":
must fall outside), and a window whose start is not strictly before its
end is read as the wrap-around union [Jan 1, end] ∪ [start, Dec 31]
(offsets 0 and 364 are 2021-01-01 and 2021-12-31). -/
def meetsInstructionConstraints (d : Int) (ag : AgPractices) (i : Fin 4) : Bool :=
  match (ag.tier i).instr with
  | none => true
  | some w =>
    if w.timeframeY then
      if w.startDate < w.endDate then decide (w.startDate ≤ d ∧ d ≤ w.endDate)
      else decide ((0 ≤ d ∧ d ≤ w.endDate) ∨ (w.startDate ≤ d ∧ d ≤ 364))
    else
      if w.startDate < w.endDate then !decide (w.startDate ≤ d ∧ d ≤ w.endDate)
      else !decide ((0 ≤ d ∧ d ≤ w.endDate) ∨ (w.startDate ≤ d ∧ d ≤ 364))

/-- within_mri (lines 566-585): True when the new date is strictly within
`mri` days (absolute distance, either direction) of any already-made
application. -/
def withinMri (newApp : Int) (applications : List (Int × ℚ)) (mri : Int) : Bool :=
  applications.any (fun p => decide (|p.1 - newApp| < mri))

/-- within_phi (lines 588-605): a pre-emergence application cannot be the
day before emergence; a post-emergence application cannot fall in
(harvest - PHI, harvest]. -/
def withinPhi (d : Int) (iv : AppInterval) (ag : AgPractices) : Bool :=
  match iv with
  | .pre => decide (d = ag.emergence - 1)
  | .post => decide (ag.harvest - ag.phiInt < d ∧ d ≤ ag.harvest)

/-- Per-tier counters of the tracking DataFrame `count`: columns
num_apps / amt_applied.  num_apps is stored as a float in the source but
only ever incremented by 1 from 0, so a natural number is exact. -/
structure Counter where
  numApps : ℕ
  amtApplied : ℚ
  deriving DecidableEq

/-- The `count` DataFrame (rows Total / PreEmergence / PostEmergence /
Rate1..Rate4). -/
structure Ledger where
  total : Counter
  pre : Counter
  post : Counter
  r1 : Counter
  r2 : Counter
  r3 : Counter
  r4 : Counter
  deriving DecidableEq

def Ledger.rateC (l : Ledger) : Fin 4 → Counter
  | 0 => l.r1
  | 1 => l.r2
  | 2 => l.r3
  | 3 => l.r4

def Ledger.ivC (l : Ledger) : AppInterval → Counter
  | .pre => l.pre
  | .post => l.post

def Counter.bump (c : Counter) (r : ℚ) : Counter :=
  { numApps := c.numApps + 1, amtApplied := c.amtApplied + r }

def Ledger.bumpRate (l : Ledger) (i : Fin 4) (r : ℚ) : Ledger :=
  match i with
  | 0 => { l with r1 := l.r1.bump r }
  | 1 => { l with r2 := l.r2.bump r }
  | 2 => { l with r3 := l.r3.bump r }
  | 3 => { l with r4 := l.r4.bump r }

def Ledger.bumpIv (l : Ledger) (iv : AppInterval) (r : ℚ) : Ledger :=
  match iv with
  | .pre => { l with pre := l.pre.bump r }
  | .post => { l with post := l.post.bump r }

def Ledger.bumpTotal (l : Ledger) (r : ℚ) : Ledger :=
  { l with total := l.total.bump r }

/-- The seven `count.at[...] += ...` updates of one commit of the inner
application loop (pwct_algo_thread.py lines 912-917). -/
def Ledger.commitApp (l : Ledger) (i : Fin 4) (iv : AppInterval) (r : ℚ) : Ledger :=
  ((l.bumpRate i r).bumpIv iv r).bumpTotal r

def zeroLedger : Ledger :=
  { total := ⟨0, 0⟩, pre := ⟨0, 0⟩, post := ⟨0, 0⟩
  , r1 := ⟨0, 0⟩, r2 := ⟨0, 0⟩, r3 := ⟨0, 0⟩, r4 := ⟨0, 0⟩ }

/-- Result triple of get_rate: (rate_id, app_rate, valid_app_rate). -/
structure RateSel where
  rid : Option (Fin 4)
  rate : ℚ
  valid : Bool
  deriving DecidableEq

/-- The "Max App. Rate" branch of get_rate (lines 138-174), iterating
tiers 1→4.  A non-existent tier (np.inf max rate) is skipped; an existing
tier under its per-tier cap with two valid intervals wins outright; with
exactly one valid interval it wins only if that interval's count and
amount are each strictly under their caps.  A tier with a rate but no MRI
at all carries the source's [pd.NA] valid-interval list, on which the
DataFrame lookup `count.at[pd.NA, "num_apps"]` cannot select it; the
model skips such a tier. -/
def getRateMaxGo (ag : AgPractices) (count : Ledger) : List (Fin 4) → RateSel
  | [] => ⟨none, 0, false⟩
  | i :: rest =>
    let t := ag.tier i
    match t.maxAppRate with
    | none => getRateMaxGo ag count rest
    | some r =>
      if capLtQ ((count.rateC i).numApps : ℚ) t.maxNumApps then
        match t.validIntervals with
        | [iv] =>
          if capLtQ ((count.ivC iv).numApps : ℚ) (ag.ivMaxNumApps iv)
              && capLtQ (count.ivC iv).amtApplied (ag.ivMaxAmt iv) then
            ⟨some i, r, true⟩
          else getRateMaxGo ag count rest
        | [_, _] => ⟨some i, r, true⟩
        | _ => getRateMaxGo ag count rest
      else getRateMaxGo ag count rest

/-- The wettest-month branch of get_rate (lines 176-203): first existing
tier under its cap whose valid intervals contain the candidate's interval
and whose instruction constraints admit the candidate date. -/
def getRateWetGo (ag : AgPractices) (count : Ledger) (iv : AppInterval) (d : Int) :
    List (Fin 4) → RateSel
  | [] => ⟨none, 0, false⟩
  | i :: rest =>
    let t := ag.tier i
    match t.maxAppRate with
    | none => getRateWetGo ag count iv d rest
    | some r =>
      if capLtQ ((count.rateC i).numApps : ℚ) t.maxNumApps
          && decide (iv ∈ t.validIntervals)
          && meetsInstructionConstraints d ag i then
        ⟨some i, r, true⟩
      else getRateWetGo ag count iv d rest

/-- get_rate (lines 121-205). -/
def getRate (ag : AgPractices) (count : Ledger) (iv : AppInterval)
    (mode : DatePrioritization) (d : Int) : RateSel :=
  match mode with
  | .maxRate => getRateMaxGo ag count (List.finRange 4)
  | .wettestMonth => getRateWetGo ag count iv d (List.finRange 4)

/-- check_app_validity (lines 208-242). -/
def checkAppValidity (d : Int) (iv : AppInterval) (ag : AgPractices)
    (rid : Option (Fin 4)) (applications : List (Int × ℚ)) (count : Ledger) : Bool :=
  match rid with
  | none => false
  | some i =>
    decide (iv ∈ (ag.tier i).validIntervals)
      && capLeQ (((count.ivC iv).numApps : ℚ) + 1) (ag.ivMaxNumApps iv)
      && capLeQ ((count.ivC iv).amtApplied + 1/1000) (ag.ivMaxAmt iv)
      && meetsInstructionConstraints d ag i
      && !withinMri d applications ((ag.tier i).mriFor iv)
      && !withinPhi d iv ag

/-- adjust_app_rate (lines 378-398): clamp first to the interval amount
headroom, then (if still positive) to the annual amount headroom.  A
missing cap is np.inf, for which the clamp condition is False. -/
def adjustAppRate (rate : ℚ) (iv : AppInterval) (ag : AgPractices) (count : Ledger) : ℚ :=
  let r1 :=
    match ag.ivMaxAmt iv with
    | none => rate
    | some c => if c < (count.ivC iv).amtApplied + rate then c - (count.ivC iv).amtApplied else rate
  if 0 < r1 then
    match ag.maxAnnAmt with
    | none => r1
    | some c =>
      if c < count.total.amtApplied + r1 then c - count.total.amtApplied else r1
  else r1

/-- One entry of the `exhausted_rates` list of no_more_apps_can_be_made
(lines 438-446): an existing tier is exhausted when its counter equals its
per-tier cap; a non-existent tier counts as exhausted. -/
def tierExhaustedB (count : Ledger) (ag : AgPractices) (i : Fin 4) : Bool :=
  match (ag.tier i).maxAppRate with
  | none => true
  | some _ => capEqQ ((count.rateC i).numApps : ℚ) (ag.tier i).maxNumApps

/-- no_more_apps_can_be_made (lines 401-451): the Termination Oracle. -/
def noMoreAppsCanBeMade (count : Ledger) (ag : AgPractices) : Bool :=
  if count.total.numApps = 50 then true
  else if capEqQ (count.total.numApps : ℚ) ag.maxAnnNumApps
      || capEqQ count.total.amtApplied ag.maxAnnAmt then true
  else if (capEqQ (count.pre.numApps : ℚ) ag.preMaxNumApps
        || capEqQ count.pre.amtApplied ag.preMaxAmt)
      && (capEqQ (count.post.numApps : ℚ) ag.postMaxNumApps
        || capEqQ count.post.amtApplied ag.postMaxAmt) then true
  else if (List.finRange 4).all (tierExhaustedB count ag) then true
  else false

/-- Return bundle of prepare_next_app.  `none`-valued fields model the
pd.NA assignments of the source (lines 359-365); short-circuiting of the
inner while condition keeps them from ever being read when validRate is
false. -/
structure NextApp where
  date : Option Int
  interval : Option AppInterval
  validDate : Option Bool
  validRate : Bool
  rid : Option (Fin 4)
  rate : Option ℚ
  reverse : Option Bool
  deriving DecidableEq

/-- Intermediate result of the nested helper get_next_reverse_date. -/
structure RevStep where
  date : Int
  interval : AppInterval
  validDate : Bool
  validRate : Bool
  rid : Option (Fin 4)
  rate : ℚ
  deriving DecidableEq

/-- get_next_reverse_date (lines 273-304): subtract the MRI (with year
fold), reclassify, reselect the rate, recheck validity.  `none` when the
folded date cannot be constructed (Python ValueError). -/
def getNextReverseDate (ag : AgPractices) (mode : DatePrioritization)
    (applications : List (Int × ℚ)) (count : Ledger) (d : Int) (mri : Int) :
    Option RevStep :=
  match nextReverseDate d mri with
  | none => none
  | some nd =>
    let niv := getInterval nd ag
    let sel := getRate ag count niv mode nd
    let v := if sel.valid then checkAppValidity nd niv ag sel.rid applications count else false
    some ⟨nd, niv, v, sel.valid, sel.rid, sel.rate⟩

/-- prepare_next_app (lines 245-375).  The Boolean `reverse` parameter is
the chain's reverse_assigning flag; the source only ever calls the
function while that flag is a genuine Boolean. -/
def prepareNextApp (d : Int) (iv : AppInterval) (i : Fin 4) (startDate : Int)
    (reverse : Bool) (ag : AgPractices) (applications : List (Int × ℚ))
    (count : Ledger) (mode : DatePrioritization) : Option NextApp :=
  let mri := (ag.tier i).mriFor iv
  if reverse then
    match getNextReverseDate ag mode applications count d mri with
    | none => none
    | some rs =>
      some ⟨some rs.date, some rs.interval, some rs.validDate, rs.validRate,
        rs.rid, some rs.rate, some reverse⟩
  else
    match nextForwardDate d mri with
    | none => none
    | some nfd =>
      let niv := getInterval nfd ag
      let sel := getRate ag count niv mode nfd
      if sel.valid then
        if checkAppValidity nfd niv ag sel.rid applications count then
          some ⟨some nfd, some niv, some true, true, sel.rid, some sel.rate, some reverse⟩
        else
          match getNextReverseDate ag mode applications count startDate mri with
          | none => none
          | some rs =>
            some ⟨some rs.date, some rs.interval, some rs.validDate, rs.validRate,
              rs.rid, some rs.rate, some true⟩
      else
        some ⟨none, none, none, false, none, none, none⟩

/-- Mutable state shared by a whole assign_application_dates run: the
`count` DataFrame and the `applications` list (in commitment order). -/
structure SchedState where
  count : Ledger
  apps : List (Int × ℚ)
  deriving DecidableEq

def initSchedState : SchedState := ⟨zeroLedger, []⟩

/-- Local variables of one candidate-date iteration of the outer for loop
(one "chain" of the inner application while loop), as of the while-loop
condition test. -/
structure Chain where
  sched : SchedState
  startDate : Int
  appDate : Option Int
  interval : Option AppInterval
  rid : Option (Fin 4)
  appRate : Option ℚ
  validStart : Bool
  validRate : Bool
  validNext : Option Bool
  reverse : Option Bool
  deriving DecidableEq

/-- The condition of the inner application while loop (pwct_algo_thread.py
lines 901-909), in the source's left-to-right short-circuit order.  The
pd.NA values that prepare_next_app can leave in valid_next_date, app_rate
and rate_id sit to the right of the valid_app_rate conjunct that guards
them; the model reads them through defaults that are never reached when
the guard can be true. -/
def chainGuard (ag : AgPractices) (c : Chain) : Bool :=
  c.validStart && c.validRate && (c.validNext.getD false)
    && decide (0 < c.appRate.getD 0)
    && (match c.rid with
        | some i => capLeQ (((c.sched.count.rateC i).numApps : ℚ) + 1) ((ag.tier i).maxNumApps)
        | none => false)
    && capLeQ ((c.sched.count.total.numApps : ℚ) + 1) ag.maxAnnNumApps
    && capLeQ (c.sched.count.total.amtApplied + c.appRate.getD 0) ag.maxAnnAmt

/-- One outcome of testing the inner while condition: the loop exits
(`done`), commits and continues (`cont`), or the prepared next date could
not be constructed (`crash`, Python ValueError).  The fall-back `crash` of
the impossible pattern match mirrors the KeyError the source would raise
on a pd.NA rate_id; it is unreachable whenever the guard can be true. -/
inductive ChainRes where
  | crash
  | done (s : SchedState)
  | cont (c : Chain)
  deriving DecidableEq

/-- One iteration of the inner application while loop: test the condition,
commit the pending application, call prepare_next_app, and re-clamp the
next rate when it is valid (lines 900-940). -/
def chainStep (ag : AgPractices) (mode : DatePrioritization) (c : Chain) : ChainRes :=
  if chainGuard ag c then
    match c.rid, c.appDate, c.interval, c.appRate with
    | some i, some d, some iv, some r =>
      let s' : SchedState :=
        { count := c.sched.count.commitApp i iv r, apps := c.sched.apps ++ [(d, r)] }
      match prepareNextApp d iv i c.startDate (c.reverse.getD false) ag s'.apps s'.count mode with
      | none => .crash
      | some nxt =>
        .cont
          { sched := s'
          , startDate := c.startDate
          , appDate := nxt.date
          , interval := nxt.interval
          , rid := nxt.rid
          , appRate :=
              if nxt.validRate then
                some (adjustAppRate (nxt.rate.getD 0) (nxt.interval.getD .pre) ag s'.count)
              else nxt.rate
          , validStart := c.validStart
          , validRate := nxt.validRate
          , validNext := nxt.validDate
          , reverse := nxt.reverse }
    | _, _, _, _ => .crash
  else .done c.sched

/-- Chain initialization for one candidate start date (lines 884-898):
classify, select the rate, check validity, and clamp the rate when it is
valid. -/
def initChain (ag : AgPractices) (mode : DatePrioritization) (s : SchedState)
    (start : Int) : Chain :=
  let iv := getInterval start ag
  let sel := getRate ag s.count iv mode start
  { sched := s
  , startDate := start
  , appDate := some start
  , interval := some iv
  , rid := sel.rid
  , appRate := some (if sel.valid then adjustAppRate sel.rate iv ag s.count else sel.rate)
  , validStart := checkAppValidity start iv ag sel.rid s.apps s.count
  , validRate := sel.valid
  , validNext := some true
  , reverse := some false }

/-- Outcome of a fueled run fragment: `fuelOut` marks model-fuel
exhaustion (the source has no such bound: an inner loop the model cannot
finish within its fuel corresponds to the source looping longer — or, if
no fuel suffices, forever). -/
inductive RunRes where
  | crash
  | fuelOut
  | done (s : SchedState)
  deriving DecidableEq

/-- Run the inner application while loop to completion (fueled). -/
def runChain (ag : AgPractices) (mode : DatePrioritization) :
    ℕ → Chain → RunRes
  | 0, _ => .fuelOut
  | fuel + 1, c =>
    match chainStep ag mode c with
    | .crash => .crash
    | .done s => .done s
    | .cont c' => runChain ag mode fuel c'

/-- Outcome of one pass of the outer for loop over the candidate dates:
`stopped` = the Termination Oracle fired after some chain (the source
breaks and clears apps_can_be_made), `completed` = the stream was
exhausted without the oracle firing. -/
inductive PassRes where
  | crash
  | fuelOut
  | stopped (s : SchedState)
  | completed (s : SchedState)
  deriving DecidableEq

/-- One pass of the outer for loop (lines 883-944): run one chain per
candidate date, checking the Termination Oracle after each chain. -/
def runPass (ag : AgPractices) (mode : DatePrioritization) (fuel : ℕ) :
    List Int → SchedState → PassRes
  | [], s => .completed s
  | d :: rest, s =>
    match runChain ag mode fuel (initChain ag mode s d) with
    | .crash => .crash
    | .fuelOut => .fuelOut
    | .done s' =>
      if noMoreAppsCanBeMade s'.count ag then .stopped s'
      else runPass ag mode fuel rest s'

/-- The `while apps_can_be_made` replay loop (lines 880-948): up to 5
passes over the candidate stream, stopping early when a pass reports the
oracle fired.  `streams k` is the realized start-date list of pass `k`:
get_all_potential_app_dates enumerates every day of the reference year
(sequentially or in wettest-month order) and get_start_date optionally
replaces each by a random day of the same month, freshly per pass — the
model quantifies over the realized per-pass streams, all of whose dates
lie in the reference year. -/
def runPasses (ag : AgPractices) (mode : DatePrioritization)
    (streams : ℕ → List Int) (fuel : ℕ) : ℕ → ℕ → SchedState → RunRes
  | 0, _, s => .done s
  | remaining + 1, idx, s =>
    match runPass ag mode fuel (streams idx) s with
    | .crash => .crash
    | .fuelOut => .fuelOut
    | .stopped s' => .done s'
    | .completed s' => runPasses ag mode streams fuel remaining (idx + 1) s'

/-- assign_application_dates (pwct_algo_thread.py lines 837-981), from a
fresh zero ledger and empty application list. -/
def assignApplicationDates (ag : AgPractices) (mode : DatePrioritization)
    (streams : ℕ → List Int) (fuel : ℕ) : RunRes :=
  runPasses ag mode streams fuel 5 0 initSchedState

/-! ## Compliance validator (pwct_batchfile_qc.py) -/

/-- Validator comparison `x <= cap`: the QC path reads the raw agronomic
practices table, where a missing cap is NaN and every comparison with it
is False. -/
def qcLe (x : ℚ) : Option ℚ → Bool
  | none => false
  | some c => decide (x ≤ c)

/-- Validator comparison `x <= cap + tol` (tol = APP_AMT_THRESHOLD). -/
def qcLeT (x tol : ℚ) : Option ℚ → Bool
  | none => false
  | some c => decide (x ≤ c + tol)

/-- Whether any of the four tiers specifies an MRI for the interval
(the pd.notna disjunction of prepare_apt). -/
def qcAnyIvMRI (ag : AgPractices) (iv : AppInterval) : Bool :=
  ag.tiersList.any (fun t => (t.ivMRI iv).isSome)

/-- prepare_apt (pwct_batchfile_qc.py lines 198-275), number-of-apps fill:
a missing interval cap becomes the annual cap when some tier has an MRI
for the interval (the interval is usable), and 0 otherwise. -/
def qcIvNumCap (ag : AgPractices) (iv : AppInterval) : Option ℚ :=
  match ag.ivMaxNumApps iv with
  | some c => some c
  | none => if qcAnyIvMRI ag iv then ag.maxAnnNumApps else some 0

/-- prepare_apt, amount fill (same rule with the annual amount). -/
def qcIvAmtCap (ag : AgPractices) (iv : AppInterval) : Option ℚ :=
  match ag.ivMaxAmt iv with
  | some c => some c
  | none => if qcAnyIvMRI ag iv then ag.maxAnnAmt else some 0

/-- The single label MRI the validator checks every gap against
(lines 423-427): Rate1's pre-emergence MRI when present, otherwise
Rate1's post-emergence MRI (possibly NaN = `none`). -/
def qcLabelMri (ag : AgPractices) : Option Int :=
  match ag.t1.preMRI with
  | some m => some m
  | none => ag.t1.postMRI

/-- The interval split re-derived inline by qc_batch_file
(lines 349-364); it duplicates get_interval's conditionals. -/
def qcIsPost (emergence harvest : Int) (d : Int) : Bool :=
  if emergence < harvest then decide (emergence ≤ d ∧ d ≤ harvest)
  else !decide (harvest < d ∧ d < emergence)

/-- `app_dates.sort()`: the dates, sorted ascending (insertion sort is
extensionally the Python list sort on a list of dates). -/
def qcSortedDates (apps : List (Int × ℚ)) : List Int :=
  List.insertionSort (· ≤ ·) (apps.map Prod.fst)

/-- `zip(app_dates, app_rates)` as iterated by the validator: the SORTED
dates paired positionally with the rates in their original (commitment)
order — the validator never re-pairs rates with their own dates. -/
def qcPairs (apps : List (Int × ℚ)) : List (Int × ℚ) :=
  (qcSortedDates apps).zip (apps.map Prod.snd)

/-- num_apps_pre of the zip loop. -/
def qcPreCount (ag : AgPractices) (apps : List (Int × ℚ)) : ℕ :=
  ((qcPairs apps).filter (fun q => !qcIsPost ag.emergence ag.harvest q.1)).length

/-- sum_app_rates_pre of the zip loop. -/
def qcPreSum (ag : AgPractices) (apps : List (Int × ℚ)) : ℚ :=
  (((qcPairs apps).filter (fun q => !qcIsPost ag.emergence ag.harvest q.1)).map Prod.snd).sum

/-- num_apps_post of the zip loop. -/
def qcPostCount (ag : AgPractices) (apps : List (Int × ℚ)) : ℕ :=
  ((qcPairs apps).filter (fun q => qcIsPost ag.emergence ag.harvest q.1)).length

/-- sum_app_rates_post of the zip loop. -/
def qcPostSum (ag : AgPractices) (apps : List (Int × ℚ)) : ℚ :=
  (((qcPairs apps).filter (fun q => qcIsPost ag.emergence ag.harvest q.1)).map Prod.snd).sum

/-- modeled_mris (lines 418-421): day gaps between consecutive sorted
application dates. -/
def consecutiveGaps : List Int → List Int
  | a :: b :: t => (b - a) :: consecutiveGaps (b :: t)
  | _ => []

/-- The per-run boolean check columns of the QC storage table. -/
structure QcChecks where
  annNumOk : Bool
  annAmtOk : Bool
  preNumOk : Bool
  preAmtOk : Bool
  postNumOk : Bool
  postAmtOk : Bool
  mriOk : Bool
  noDupOk : Bool
  phiOk : Bool
  numAppsFieldOk : Bool
  deriving DecidableEq

/-- The RunisValid column: conjunction of every check column. -/
def QcChecks.allOk (c : QcChecks) : Bool :=
  c.annNumOk && c.annAmtOk && c.preNumOk && c.preAmtOk && c.postNumOk
    && c.postAmtOk && c.mriOk && c.noDupOk && c.phiOk && c.numAppsFieldOk

/-- One iteration of the per-run loop of qc_batch_file
(pwct_batchfile_qc.py lines 311-491) for a run row carrying `apps` (the
Day/Month/AppRate fields, in commitment order) and the
NumberofApplications field, validated against the same label record.
`none` models the two run-aborting paths: int(NaN) on a missing PHI and
the sys.exit when the pre-harvest window start falls in the year 2020
(offsets -366..-1). -/
def qcBatchFileRun (ag : AgPractices) (apps : List (Int × ℚ)) (numAppsField : ℕ) :
    Option QcChecks :=
  match ag.phi with
  | none => none
  | some p =>
    let dates := apps.map Prod.fst
    let rates := apps.map Prod.snd
    let sorted := qcSortedDates apps
    let pstart := ag.harvest - p
    if -366 ≤ pstart ∧ pstart ≤ -1 then none
    else
      some
        { annNumOk := qcLe (dates.length : ℚ) ag.maxAnnNumApps
        , annAmtOk := qcLeT rates.sum (2/1000) ag.maxAnnAmt
        , preNumOk := qcLe (qcPreCount ag apps : ℚ) (qcIvNumCap ag .pre)
        , preAmtOk := qcLeT (qcPreSum ag apps) (2/1000) (qcIvAmtCap ag .pre)
        , postNumOk := qcLe (qcPostCount ag apps : ℚ) (qcIvNumCap ag .post)
        , postAmtOk := qcLeT (qcPostSum ag apps) (2/1000) (qcIvAmtCap ag .post)
        , mriOk := (consecutiveGaps sorted).all (fun g =>
            match qcLabelMri ag with
            | none => false
            | some l => decide (l ≤ g))
        , noDupOk := (dates.filter (fun d => 1 < dates.count d)).isEmpty
        , phiOk := dates.all (fun d => !decide (pstart < d ∧ d ≤ ag.harvest))
        , numAppsFieldOk := decide (dates.length = numAppsField) }

/-! ## Concrete label records and runs used as evaluation inputs -/

/-- A tier whose every cell is unspecified (the tier does not exist). -/
def emptyTier : RawTier := ⟨none, none, none, none, none⟩

/-- Small growing-season label record: annual caps 2 apps / 10 kg-ha,
interval num-apps caps 2, interval amounts unspecified, PHI 5, one tier at
rate 2 with MRI 7 in both intervals. -/
def wAg : AgPractices :=
  { emergence := 100, harvest := 200
  , maxAnnNumApps := some 2, maxAnnAmt := some 10
  , preMaxNumApps := some 2, preMaxAmt := none
  , postMaxNumApps := some 2, postMaxAmt := none
  , phi := some 5
  , t1 := ⟨some 2, some 4, some 7, some 7, none⟩
  , t2 := emptyTier, t3 := emptyTier, t4 := emptyTier }

/-- Final state of running `wAg` on the single-candidate stream [0]:
applications on offsets 0 and 7, each at rate 2. -/
def wFinal : SchedState :=
  { count :=
      { total := ⟨2, 4⟩, pre := ⟨2, 4⟩, post := ⟨0, 0⟩
      , r1 := ⟨2, 4⟩, r2 := ⟨0, 0⟩, r3 := ⟨0, 0⟩, r4 := ⟨0, 0⟩ }
  , apps := [(0, 2), (7, 2)] }

/-- Label record whose tier-1 MRIs disagree across intervals (pre 30,
post 5) while the whole year is post-emergence: the scheduler spaces
applications 5 days apart, the validator checks gaps against 30. -/
def cexMriAg : AgPractices :=
  { emergence := 0, harvest := 364
  , maxAnnNumApps := some 2, maxAnnAmt := some 100
  , preMaxNumApps := none, preMaxAmt := none
  , postMaxNumApps := none, postMaxAmt := none
  , phi := some 0
  , t1 := ⟨some 2, some 4, some 30, some 5, none⟩
  , t2 := emptyTier, t3 := emptyTier, t4 := emptyTier }

/-- Final state of running `cexMriAg` on the stream [10]. -/
def cexMriFinal : SchedState :=
  { count :=
      { total := ⟨2, 4⟩, pre := ⟨0, 0⟩, post := ⟨2, 4⟩
      , r1 := ⟨2, 4⟩, r2 := ⟨0, 0⟩, r3 := ⟨0, 0⟩, r4 := ⟨0, 0⟩ }
  , apps := [(10, 2), (15, 2)] }

/-- Label record with a zero MRI and no caps at all: the inner application
while loop keeps committing the same date forever. -/
def cexZeroMriAg : AgPractices :=
  { emergence := 100, harvest := 200
  , maxAnnNumApps := none, maxAnnAmt := none
  , preMaxNumApps := none, preMaxAmt := none
  , postMaxNumApps := none, postMaxAmt := none
  , phi := some 0
  , t1 := ⟨some 1, none, some 0, none, none⟩
  , t2 := emptyTier, t3 := emptyTier, t4 := emptyTier }

/-- Label record with a negative annual number-of-applications cap and no
usable tier: every run completes with an untouched zero ledger. -/
def cexNegCapAg : AgPractices :=
  { emergence := 100, harvest := 200
  , maxAnnNumApps := some (-1), maxAnnAmt := none
  , preMaxNumApps := none, preMaxAmt := none
  , postMaxNumApps := none, postMaxAmt := none
  , phi := some 0
  , t1 := emptyTier, t2 := emptyTier, t3 := emptyTier, t4 := emptyTier }

/-- Label record for the Validity-Gate amount clause: interval amount cap
1, tier rate 5; the already-applied amount (0) is under the cap, yet
committing the rate would far exceed it. -/
def cexGateAg : AgPractices :=
  { emergence := 100, harvest := 200
  , maxAnnNumApps := none, maxAnnAmt := none
  , preMaxNumApps := some 10, preMaxAmt := some 1
  , postMaxNumApps := none, postMaxAmt := none
  , phi := some 0
  , t1 := ⟨some 5, some 10, some 1, none, none⟩
  , t2 := emptyTier, t3 := emptyTier, t4 := emptyTier }

/-- Label record with annual amount cap 1, validated against a single
application of exactly 1.002 = cap + APP_AMT_THRESHOLD. -/
def cexQcAmtAg : AgPractices :=
  { emergence := 100, harvest := 200
  , maxAnnNumApps := some 10, maxAnnAmt := some 1
  , preMaxNumApps := none, preMaxAmt := none
  , postMaxNumApps := none, postMaxAmt := none
  , phi := some 0
  , t1 := ⟨some 1, some 10, some 7, some 7, none⟩
  , t2 := emptyTier, t3 := emptyTier, t4 := emptyTier }

/-- Label record for the Date Sequencer: one tier, MRI 10 in both
intervals, no instruction window. -/
def wSeqAg : AgPractices :=
  { emergence := 100, harvest := 200
  , maxAnnNumApps := none, maxAnnAmt := none
  , preMaxNumApps := none, preMaxAmt := none
  , postMaxNumApps := none, postMaxAmt := none
  , phi := some 0
  , t1 := ⟨some 2, none, some 10, some 10, none⟩
  , t2 := emptyTier, t3 := emptyTier, t4 := emptyTier }

/-- Label record whose tier 1 carries a wrap-around inclusion window
[Oct 28, Dec 31] ∪ [Jan 1, Feb 20] (offsets 300 and 50). -/
def wWrapAg : AgPractices :=
  { emergence := 100, harvest := 200
  , maxAnnNumApps := none, maxAnnAmt := none
  , preMaxNumApps := none, preMaxAmt := none
  , postMaxNumApps := none, postMaxAmt := none
  , phi := some 0
  , t1 := ⟨some 2, none, some 10, some 10, some ⟨true, 300, 50⟩⟩
  , t2 := emptyTier, t3 := emptyTier, t4 := emptyTier }

/-- A QC row in which every check column is True. -/
def qcAllTrue : QcChecks :=
  ⟨true, true, true, true, true, true, true, true, true, true⟩

/-- The prepare_next_app result for the Date Sequencer evaluation input
below: reverse candidate at offset 40, reverse mode on. -/
def wSeqNext : NextApp :=
  ⟨some 40, some .pre, some true, true, some 0, some 2, some true⟩

/-! ## Invariants used by the scheduler analysis -/

/-- Dates of the committed applications, in commitment order. -/
def SchedState.dates (s : SchedState) : List Int := s.apps.map Prod.fst

/-- Every committed date lies in the reference year. -/
def appsInYear (s : SchedState) : Prop := ∀ p ∈ s.apps, 0 ≤ p.1 ∧ p.1 ≤ 364

/-- Any two committed applications are at least `L` days apart. -/
def appsSeparated (L : Int) (s : SchedState) : Prop :=
  s.apps.Pairwise (fun p q => L ≤ |p.1 - q.1|)

/-- The committed applications classified PreEmergence by get_interval. -/
def preApps (ag : AgPractices) (s : SchedState) : List (Int × ℚ) :=
  s.apps.filter (fun p => decide (getInterval p.1 ag = AppInterval.pre))

/-- The committed applications classified PostEmergence by get_interval. -/
def postApps (ag : AgPractices) (s : SchedState) : List (Int × ℚ) :=
  s.apps.filter (fun p => decide (getInterval p.1 ag = AppInterval.post))

/-- The `count` DataFrame rows agree with the application list: the Total
row counts every application, the interval rows count the applications as
classified by get_interval. -/
def ledgerMatches (ag : AgPractices) (s : SchedState) : Prop :=
  s.count.total.numApps = s.apps.length
  ∧ s.count.total.amtApplied = (s.apps.map Prod.snd).sum
  ∧ s.count.pre.numApps = (preApps ag s).length
  ∧ s.count.pre.amtApplied = ((preApps ag s).map Prod.snd).sum
  ∧ s.count.post.numApps = (postApps ag s).length
  ∧ s.count.post.amtApplied = ((postApps ag s).map Prod.snd).sum

/-- Facts the Validity Gate guarantees for every committed application:
positive rate, outside the PHI rule for its own interval, and its interval
has an MRI on some tier. -/
def goodApps (ag : AgPractices) (s : SchedState) : Prop :=
  ∀ p ∈ s.apps, 0 < p.2
    ∧ withinPhi p.1 (getInterval p.1 ag) ag = false
    ∧ qcAnyIvMRI ag (getInterval p.1 ag) = true

/-- Cap bounds maintained through commits: each counter is within its
specified cap, except that a counter which was never incremented may sit
at 0 above a (pathological) negative cap. -/
def capsOrZero (ag : AgPractices) (s : SchedState) : Prop :=
  (∀ a, ag.maxAnnNumApps = some a →
    ((s.count.total.numApps : ℚ) ≤ a ∨ s.count.total.numApps = 0))
  ∧ (∀ b, ag.maxAnnAmt = some b →
    (s.count.total.amtApplied ≤ b ∨ s.count.total.numApps = 0))
  ∧ (∀ iv a, ag.ivMaxNumApps iv = some a →
    (((s.count.ivC iv).numApps : ℚ) ≤ a ∨ (s.count.ivC iv).numApps = 0))

/-- Combined scheduler-state invariant. -/
def MasterInv (ag : AgPractices) (L : Int) (s : SchedState) : Prop :=
  appsInYear s ∧ appsSeparated L s ∧ ledgerMatches ag s ∧ goodApps ag s
    ∧ capsOrZero ag s

/-- When the inner while condition can still fire, the pending application
is fully formed, classified by get_interval, lies in the reference year,
and passed check_app_validity against the current state. -/
def chainPending (ag : AgPractices) (c : Chain) : Prop :=
  chainGuard ag c = true →
    ∃ i d iv, c.rid = some i ∧ c.appDate = some d ∧ c.interval = some iv
      ∧ iv = getInterval d ag ∧ 0 ≤ d ∧ d ≤ 364
      ∧ checkAppValidity d iv ag (some i) c.sched.apps c.sched.count = true

/-- Chain-level combined invariant. -/
def MasterChainInv (ag : AgPractices) (L : Int) (c : Chain) : Prop :=
  MasterInv ag L c.sched ∧ (0 ≤ c.startDate ∧ c.startDate ≤ 364)
    ∧ chainPending ag c

/-- Every MRI the label record defines is at least `L` days. -/
def mriLowerBounds (ag : AgPractices) (L : Int) : Prop :=
  ∀ (i : Fin 4) (iv : AppInterval) (m : Int), (ag.tier i).ivMRI iv = some m → L ≤ m

/-- The Scheduler halts on these inputs: some model fuel suffices. -/
def SchedHalts (ag : AgPractices) (mode : DatePrioritization)
    (streams : ℕ → List Int) : Prop :=
  ∃ fuel, assignApplicationDates ag mode streams fuel ≠ RunRes.fuelOut

/-- The recurring chain state of the zero-MRI divergence: the pending
application is always (offset 0, rate 1) and every flag stays set. -/
def zeroMriChainInv (c : Chain) : Prop :=
  c.appDate = some 0 ∧ c.interval = some AppInterval.pre ∧ c.rid = some 0
    ∧ c.appRate = some 1 ∧ c.validStart = true ∧ c.validRate = true
    ∧ c.validNext = some true ∧ c.reverse = some false ∧ c.startDate = 0

/-! ## Basic lemmas about the comparison helpers -/

theorem capLeQ_eq_true_iff (x : ℚ) (c : Option ℚ) :
    capLeQ x c = true ↔ ∀ a, c = some a → x ≤ a := by
  cases c <;> simp [capLeQ]

theorem capLtQ_eq_true_iff (x : ℚ) (c : Option ℚ) :
    capLtQ x c = true ↔ ∀ a, c = some a → x < a := by
  cases c <;> simp [capLtQ]

theorem capEqQ_eq_true_iff (x : ℚ) (c : Option ℚ) :
    capEqQ x c = true ↔ ∃ a, c = some a ∧ x = a := by
  cases c <;> simp [capEqQ]

theorem withinMri_eq_false_iff (d : Int) (apps : List (Int × ℚ)) (mri : Int) :
    withinMri d apps mri = false ↔ ∀ p ∈ apps, mri ≤ |p.1 - d| := by
  simp [withinMri, List.any_eq_false, not_lt]

theorem tierExhaustedB_eq_true_iff (count : Ledger) (ag : AgPractices) (i : Fin 4) :
    tierExhaustedB count ag i = true ↔
      (ag.tier i).maxAppRate = none
        ∨ ∃ a, (ag.tier i).maxNumApps = some a ∧ ((count.rateC i).numApps : ℚ) = a := by
  cases h : (ag.tier i).maxAppRate <;>
    simp [tierExhaustedB, h, capEqQ_eq_true_iff]

/-- C5.  The PHI predicate within_phi holds exactly as the spec states:
for a PreEmergence date it flags exactly the day before emergence; for a
PostEmergence date it flags exactly the half-open range
(harvest − PHI, harvest], harvest inclusive. -/
theorem withinPhi_spec (d : Int) (ag : AgPractices) :
    (withinPhi d .pre ag = true ↔ d = ag.emergence - 1)
    ∧ (withinPhi d .post ag = true ↔
        (ag.harvest - ag.phiInt < d ∧ d ≤ ag.harvest)) := by
  constructor <;> simp [withinPhi]

/-- C7.  In MaxRate date-prioritization mode the Rate Selector never
consults the candidate date (in particular it never evaluates the
instruction window): for any two dates it returns the same
(tier id, rate, validity) triple, depending only on the ledger and caps. -/
theorem getRate_maxRate_date_independent (ag : AgPractices) (count : Ledger)
    (iv : AppInterval) (d₁ d₂ : Int) :
    getRate ag count iv .maxRate d₁ = getRate ag count iv .maxRate d₂ := rfl

/-- C10.  For a resolved instruction window whose start is strictly after
its end, meets_instruction_constraints reads the window as the wrap-around
union [Jan 1, end] ∪ [start, Dec 31] of the reference year (offsets 0 and
364): in "Y" mode a date satisfies the constraint iff it lies in the
union, in "N" mode iff it lies outside it; a tier with no instruction code
is always satisfied. -/
theorem meetsInstructionConstraints_wrap (ag : AgPractices) (i : Fin 4)
    (w : InstrWindow) (hw : (ag.tier i).instr = some w)
    (hwrap : w.endDate < w.startDate) :
    (∀ d : Int,
      (w.timeframeY = true →
        (meetsInstructionConstraints d ag i = true ↔
          ((0 ≤ d ∧ d ≤ w.endDate) ∨ (w.startDate ≤ d ∧ d ≤ 364))))
      ∧ (w.timeframeY = false →
        (meetsInstructionConstraints d ag i = true ↔
          ¬((0 ≤ d ∧ d ≤ w.endDate) ∨ (w.startDate ≤ d ∧ d ≤ 364)))))
    ∧ (∀ (ag' : AgPractices) (j : Fin 4) (d' : Int),
        (ag'.tier j).instr = none → meetsInstructionConstraints d' ag' j = true) := by
  have hlt : ¬(w.startDate < w.endDate) := not_lt.2 hwrap.le
  refine ⟨fun d => ⟨fun hY => ?_, fun hN => ?_⟩, fun ag' j d' h => ?_⟩
  · simp [meetsInstructionConstraints, hw, hY, hlt]
  · simp [meetsInstructionConstraints, hw, hN, hlt]
    constructor
    · rintro ⟨h1, h2⟩
      refine ⟨fun hd => ?_, fun hs => ?_⟩
      · rcases h1 with h | h
        · omega
        · exact h
      · rcases h2 with h | h
        · omega
        · exact h
    · rintro ⟨h1, h2⟩
      refine ⟨?_, ?_⟩
      · by_cases hd : 0 ≤ d
        · exact Or.inr (h1 hd)
        · exact Or.inl (by omega)
      · by_cases hs : w.startDate ≤ d
        · exact Or.inr (h2 hs)
        · exact Or.inl (by omega)
  · simp [meetsInstructionConstraints, h]

/-- Witness for C10: the tier-1 window of `wWrapAg` wraps (Oct 28 → Feb
20); Feb 8 (offset 38) lies in the union and satisfies the constraint. -/
theorem meetsInstructionConstraints_wrap_witness :
    meetsInstructionConstraints 38 wWrapAg 0 = true ↔
      ((0 ≤ (38:Int) ∧ (38:Int) ≤ 50) ∨ ((300:Int) ≤ 38 ∧ (38:Int) ≤ 364)) :=
  ((meetsInstructionConstraints_wrap wWrapAg 0 ⟨true, 300, 50⟩ rfl (by decide)).1 38).1 rfl

theorem qcLeT_eq_false_iff (x tol : ℚ) (c : Option ℚ) :
    qcLeT x tol c = false ↔ c = none ∨ ∃ a, c = some a ∧ a + tol < x := by
  cases c <;> simp [qcLeT, not_le]

/-- C4 counterexample.  The Validity Gate's amount conjunct does not
examine the tier's rate: with an interval amount cap of 1, an
already-applied amount of 0 and a tier rate of 5, check_app_validity
accepts the date even though committing the rate would exceed the cap far
beyond any 0.001 tolerance. -/
theorem checkAppValidity_amount_clause_cex :
    checkAppValidity 0 .pre cexGateAg (some 0) [] zeroLedger = true
    ∧ (cexGateAg.tier 0).maxAppRate = some 5
    ∧ cexGateAg.ivMaxAmt .pre = some 1
    ∧ ¬((zeroLedger.ivC .pre).amtApplied + 5 ≤ 1 + 1/1000) := by
  with_unfolding_all decide

theorem checkAppValidity_eq_true_iff (d : Int) (iv : AppInterval) (ag : AgPractices)
    (rid : Option (Fin 4)) (apps : List (Int × ℚ)) (count : Ledger) :
    checkAppValidity d iv ag rid apps count = true ↔
      ∃ i, rid = some i
        ∧ iv ∈ (ag.tier i).validIntervals
        ∧ (∀ a, ag.ivMaxNumApps iv = some a → ((count.ivC iv).numApps : ℚ) + 1 ≤ a)
        ∧ (∀ a, ag.ivMaxAmt iv = some a → (count.ivC iv).amtApplied + 1/1000 ≤ a)
        ∧ meetsInstructionConstraints d ag i = true
        ∧ (∀ p ∈ apps, (ag.tier i).mriFor iv ≤ |p.1 - d|)
        ∧ withinPhi d iv ag = false := by
  cases rid with
  | none => simp [checkAppValidity]
  | some i =>
    simp only [checkAppValidity, Bool.and_eq_true, decide_eq_true_eq,
      Bool.not_eq_true', capLeQ_eq_true_iff, withinMri_eq_false_iff,
      Option.some.injEq]
    constructor
    · rintro ⟨⟨⟨⟨⟨hiv, hnum⟩, hamt⟩, hinstr⟩, hmri⟩, hphi⟩
      exact ⟨i, rfl, hiv, hnum, hamt, hinstr, hmri, hphi⟩
    · rintro ⟨j, rfl, hiv, hnum, hamt, hinstr, hmri, hphi⟩
      exact ⟨⟨⟨⟨⟨hiv, hnum⟩, hamt⟩, hinstr⟩, hmri⟩, hphi⟩

/-- C4 (amended).  check_app_validity returns False for a missing tier id
and otherwise True iff: the interval is among the tier's valid intervals;
one more application does not exceed the interval's max-num-apps; the
interval's ALREADY-APPLIED amount is at least 0.001 below the interval's
max-amount (the tier's rate itself is not examined - clamping happens
later in adjust_app_rate); the instruction window admits the date; the
date is at least the tier's MRI away (absolute distance) from every
previously committed application; and the date does not fall within the
PHI rule. -/
theorem checkAppValidity_spec (d : Int) (iv : AppInterval) (ag : AgPractices)
    (rid : Option (Fin 4)) (apps : List (Int × ℚ)) (count : Ledger) :
    checkAppValidity d iv ag rid apps count = true ↔
      ∃ i, rid = some i
        ∧ iv ∈ (ag.tier i).validIntervals
        ∧ (∀ a, ag.ivMaxNumApps iv = some a → ((count.ivC iv).numApps : ℚ) + 1 ≤ a)
        ∧ (∀ a, ag.ivMaxAmt iv = some a → (count.ivC iv).amtApplied + 1/1000 ≤ a)
        ∧ meetsInstructionConstraints d ag i = true
        ∧ (∀ p ∈ apps, (ag.tier i).mriFor iv ≤ |p.1 - d|)
        ∧ withinPhi d iv ag = false :=
  checkAppValidity_eq_true_iff d iv ag rid apps count

/-- C3.  The Termination Oracle no_more_apps_can_be_made returns True iff
at least one of: the total equals the 50-application platform ceiling; the
total number of applications or total amount equals the annual cap; both
intervals are individually exhausted (num-apps or amount cap met, for each
interval); or every rate tier is exhausted (num-apps cap met, or the tier
does not exist). -/
theorem noMoreAppsCanBeMade_spec (count : Ledger) (ag : AgPractices) :
    noMoreAppsCanBeMade count ag = true ↔
      count.total.numApps = 50
      ∨ ((∃ a, ag.maxAnnNumApps = some a ∧ (count.total.numApps : ℚ) = a)
          ∨ (∃ a, ag.maxAnnAmt = some a ∧ count.total.amtApplied = a))
      ∨ (((∃ a, ag.preMaxNumApps = some a ∧ (count.pre.numApps : ℚ) = a)
            ∨ (∃ a, ag.preMaxAmt = some a ∧ count.pre.amtApplied = a))
          ∧ ((∃ a, ag.postMaxNumApps = some a ∧ (count.post.numApps : ℚ) = a)
            ∨ (∃ a, ag.postMaxAmt = some a ∧ count.post.amtApplied = a)))
      ∨ (∀ i : Fin 4, (ag.tier i).maxAppRate = none
          ∨ ∃ a, (ag.tier i).maxNumApps = some a ∧ ((count.rateC i).numApps : ℚ) = a) := by
  unfold noMoreAppsCanBeMade
  split_ifs with h1 h2 h3 h4
  · exact iff_of_true rfl (Or.inl h1)
  · refine iff_of_true rfl (Or.inr (Or.inl ?_))
    rw [Bool.or_eq_true] at h2
    rcases h2 with h | h
    · exact Or.inl ((capEqQ_eq_true_iff _ _).1 h)
    · exact Or.inr ((capEqQ_eq_true_iff _ _).1 h)
  · rw [Bool.and_eq_true] at h3
    obtain ⟨hpre, hpost⟩ := h3
    rw [Bool.or_eq_true] at hpre hpost
    refine iff_of_true rfl (Or.inr (Or.inr (Or.inl ⟨?_, ?_⟩)))
    · rcases hpre with h | h
      · exact Or.inl ((capEqQ_eq_true_iff _ _).1 h)
      · exact Or.inr ((capEqQ_eq_true_iff _ _).1 h)
    · rcases hpost with h | h
      · exact Or.inl ((capEqQ_eq_true_iff _ _).1 h)
      · exact Or.inr ((capEqQ_eq_true_iff _ _).1 h)
  · refine iff_of_true rfl (Or.inr (Or.inr (Or.inr fun i => ?_)))
    exact (tierExhaustedB_eq_true_iff count ag i).1
      (List.all_eq_true.1 h4 i (List.mem_finRange i))
  · refine iff_of_false (by simp) ?_
    rintro (h | h | h | h)
    · exact h1 h
    · refine h2 ?_
      rw [Bool.or_eq_true]
      rcases h with h | h
      · exact Or.inl ((capEqQ_eq_true_iff _ _).2 h)
      · exact Or.inr ((capEqQ_eq_true_iff _ _).2 h)
    · obtain ⟨hp, hq⟩ := h
      refine h3 ?_
      rw [Bool.and_eq_true, Bool.or_eq_true, Bool.or_eq_true]
      refine ⟨?_, ?_⟩
      · rcases hp with h | h
        · exact Or.inl ((capEqQ_eq_true_iff _ _).2 h)
        · exact Or.inr ((capEqQ_eq_true_iff _ _).2 h)
      · rcases hq with h | h
        · exact Or.inl ((capEqQ_eq_true_iff _ _).2 h)
        · exact Or.inr ((capEqQ_eq_true_iff _ _).2 h)
    · exact h4 (List.all_eq_true.2 fun i _ =>
        (tierExhaustedB_eq_true_iff count ag i).2 (h i))

/-- C6.  The Date Sequencer prepare_next_app: (a) in reverse mode every
next candidate is the current date minus the current tier/interval MRI
(with the year fold), and the reverse flag stays set — the chain never
reverts to forward; (b) in forward mode, when the forward candidate
current + MRI has a valid rate but fails the Validity Gate, the next
candidate is computed from the chain's original start date
(start − MRI, with the year fold), not from the immediately prior date,
and the chain switches to reverse mode. -/
theorem prepareNextApp_reverse_anchoring (d : Int) (iv : AppInterval) (i : Fin 4)
    (start : Int) (ag : AgPractices) (apps : List (Int × ℚ)) (count : Ledger)
    (mode : DatePrioritization) :
    (∀ n, prepareNextApp d iv i start true ag apps count mode = some n →
        n.date = nextReverseDate d ((ag.tier i).mriFor iv) ∧ n.reverse = some true)
    ∧ (∀ nfd, nextForwardDate d ((ag.tier i).mriFor iv) = some nfd →
        (getRate ag count (getInterval nfd ag) mode nfd).valid = true →
        checkAppValidity nfd (getInterval nfd ag) ag
          (getRate ag count (getInterval nfd ag) mode nfd).rid apps count = false →
        ∀ n, prepareNextApp d iv i start false ag apps count mode = some n →
          n.date = nextReverseDate start ((ag.tier i).mriFor iv)
            ∧ n.reverse = some true) := by
  constructor
  · intro n hn
    simp only [prepareNextApp, getNextReverseDate, if_true] at hn
    cases hrev : nextReverseDate d ((ag.tier i).mriFor iv) with
    | none => rw [hrev] at hn; exact absurd hn (by simp)
    | some nd =>
      rw [hrev] at hn
      simp only [Option.some.injEq] at hn
      subst hn
      exact ⟨rfl, rfl⟩
  · intro nfd hfwd hval hinv n hn
    simp only [prepareNextApp, Bool.false_eq_true, if_false, hfwd] at hn
    rw [if_pos hval, if_neg (by rw [hinv]; exact Bool.false_ne_true)] at hn
    simp only [getNextReverseDate] at hn
    cases hrev : nextReverseDate start ((ag.tier i).mriFor iv) with
    | none => rw [hrev] at hn; exact absurd hn (by simp)
    | some nd =>
      rw [hrev] at hn
      simp only [Option.some.injEq] at hn
      subst hn
      exact ⟨rfl, rfl⟩

/-- Witness for C6: on `wSeqAg` (tier-1 MRI 10) with a prior application
at offset 55, both the reverse step from 50 and the forward-invalid
switch at 50 (forward candidate 60 violates the MRI) produce the
candidate 40 = 50 − 10 with the reverse flag set. -/
theorem prepareNextApp_reverse_anchoring_witness :
    (wSeqNext.date = nextReverseDate 50 ((wSeqAg.tier 0).mriFor AppInterval.pre)
      ∧ wSeqNext.reverse = some true)
    ∧ (wSeqNext.date = nextReverseDate 50 ((wSeqAg.tier 0).mriFor AppInterval.pre)
      ∧ wSeqNext.reverse = some true) :=
  ⟨(prepareNextApp_reverse_anchoring 50 .pre 0 50 wSeqAg [(55, 2)] zeroLedger
      .maxRate).1 wSeqNext (by with_unfolding_all decide),
   (prepareNextApp_reverse_anchoring 50 .pre 0 50 wSeqAg [(55, 2)] zeroLedger
      .maxRate).2 60 (by with_unfolding_all decide) (by with_unfolding_all decide)
      (by with_unfolding_all decide) wSeqNext (by with_unfolding_all decide)⟩

/-- C9 counterexample.  The validator's annual-amount check uses
`sum <= cap + 0.002`: at a modeled sum of exactly cap + 0.002
(rates summing to 1.002 against cap 1) the check column is True, while
the claim requires a sum ≥ cap + 0.002 to produce False. -/
theorem qcAnnAmt_boundary_cex :
    qcBatchFileRun cexQcAmtAg [(10, 501/500)] 1 = some qcAllTrue
    ∧ cexQcAmtAg.maxAnnAmt = some 1
    ∧ ((1 : ℚ) + 2/1000 ≤ (([(10, (501 : ℚ)/500)]).map Prod.snd).sum) := by
  refine ⟨?_, rfl, ?_⟩
  · with_unfolding_all decide
  · with_unfolding_all decide

/-- C9 (amended).  The validator's amount checks (annual, pre-emergence,
post-emergence) fail exactly when the modeled sum STRICTLY exceeds the
corresponding cap plus APP_AMT_THRESHOLD = 0.002 (a sum equal to
cap + 0.002 still passes), and also fail whenever the cap is unspecified
(NaN). -/
theorem qcAmountChecks_fail_iff (ag : AgPractices) (apps : List (Int × ℚ))
    (numAppsField : ℕ) (checks : QcChecks)
    (h : qcBatchFileRun ag apps numAppsField = some checks) :
    (checks.annAmtOk = false ↔
        ag.maxAnnAmt = none
          ∨ ∃ a, ag.maxAnnAmt = some a ∧ a + 2/1000 < (apps.map Prod.snd).sum)
    ∧ (checks.preAmtOk = false ↔
        qcIvAmtCap ag .pre = none
          ∨ ∃ a, qcIvAmtCap ag .pre = some a ∧ a + 2/1000 < qcPreSum ag apps)
    ∧ (checks.postAmtOk = false ↔
        qcIvAmtCap ag .post = none
          ∨ ∃ a, qcIvAmtCap ag .post = some a ∧ a + 2/1000 < qcPostSum ag apps) := by
  cases hphi : ag.phi with
  | none => rw [qcBatchFileRun, hphi] at h; exact absurd h (by simp)
  | some p =>
    rw [qcBatchFileRun, hphi] at h
    simp only [] at h
    by_cases hc : (-366 ≤ ag.harvest - p ∧ ag.harvest - p ≤ -1)
    · rw [if_pos hc] at h; exact absurd h (by simp)
    · rw [if_neg hc] at h
      simp only [Option.some.injEq] at h
      subst h
      exact ⟨qcLeT_eq_false_iff _ _ _, qcLeT_eq_false_iff _ _ _, qcLeT_eq_false_iff _ _ _⟩

/-- Witness for C9 (amended): the boundary row again — the check is True
(not False), matching the amended criterion since the sum does not
STRICTLY exceed cap + 0.002. -/
theorem qcAmountChecks_fail_iff_witness :
    qcAllTrue.annAmtOk = false ↔
      cexQcAmtAg.maxAnnAmt = none
        ∨ ∃ a, cexQcAmtAg.maxAnnAmt = some a
            ∧ a + 2/1000 < (([(10, (501 : ℚ)/500)] : List (Int × ℚ)).map Prod.snd).sum :=
  (qcAmountChecks_fail_iff cexQcAmtAg [(10, 501/500)] 1 qcAllTrue
    (by with_unfolding_all decide)).1

/-! ## Ledger commit arithmetic -/

theorem Ledger.total_bumpRate (l : Ledger) (i : Fin 4) (r : ℚ) :
    (l.bumpRate i r).total = l.total := by
  fin_cases i <;> rfl

theorem Ledger.total_bumpIv (l : Ledger) (iv : AppInterval) (r : ℚ) :
    (l.bumpIv iv r).total = l.total := by
  cases iv <;> rfl

theorem Ledger.ivC_bumpTotal (l : Ledger) (r : ℚ) (iv : AppInterval) :
    (l.bumpTotal r).ivC iv = l.ivC iv := by
  cases iv <;> rfl

theorem Ledger.ivC_bumpRate (l : Ledger) (i : Fin 4) (r : ℚ) (iv : AppInterval) :
    (l.bumpRate i r).ivC iv = l.ivC iv := by
  fin_cases i <;> cases iv <;> rfl

theorem Ledger.ivC_bumpIv_same (l : Ledger) (iv : AppInterval) (r : ℚ) :
    (l.bumpIv iv r).ivC iv = (l.ivC iv).bump r := by
  cases iv <;> rfl

theorem Ledger.ivC_bumpIv_ne (l : Ledger) (iv iv' : AppInterval) (r : ℚ)
    (h : iv' ≠ iv) : (l.bumpIv iv r).ivC iv' = l.ivC iv' := by
  cases iv <;> cases iv' <;> first | rfl | exact absurd rfl h

theorem commitApp_total (l : Ledger) (i : Fin 4) (iv : AppInterval) (r : ℚ) :
    (l.commitApp i iv r).total = l.total.bump r := by
  show ((((l.bumpRate i r).bumpIv iv r)).bumpTotal r).total = l.total.bump r
  show (((l.bumpRate i r).bumpIv iv r)).total.bump r = l.total.bump r
  rw [Ledger.total_bumpIv, Ledger.total_bumpRate]

theorem commitApp_ivC_same (l : Ledger) (i : Fin 4) (iv : AppInterval) (r : ℚ) :
    (l.commitApp i iv r).ivC iv = (l.ivC iv).bump r := by
  show ((((l.bumpRate i r).bumpIv iv r)).bumpTotal r).ivC iv = (l.ivC iv).bump r
  rw [Ledger.ivC_bumpTotal, Ledger.ivC_bumpIv_same, Ledger.ivC_bumpRate]

theorem commitApp_ivC_ne (l : Ledger) (i : Fin 4) (iv iv' : AppInterval) (r : ℚ)
    (h : iv' ≠ iv) : (l.commitApp i iv r).ivC iv' = l.ivC iv' := by
  show ((((l.bumpRate i r).bumpIv iv r)).bumpTotal r).ivC iv' = l.ivC iv'
  rw [Ledger.ivC_bumpTotal, Ledger.ivC_bumpIv_ne _ _ _ _ h, Ledger.ivC_bumpRate]

/-! ## Step inversion -/

theorem chainGuard_eq_true_iff (ag : AgPractices) (c : Chain) :
    chainGuard ag c = true ↔
      (c.validStart = true ∧ c.validRate = true ∧ c.validNext = some true
        ∧ 0 < c.appRate.getD 0
        ∧ (∃ i, c.rid = some i
            ∧ ∀ a, (ag.tier i).maxNumApps = some a →
                ((c.sched.count.rateC i).numApps : ℚ) + 1 ≤ a)
        ∧ (∀ a, ag.maxAnnNumApps = some a →
            (c.sched.count.total.numApps : ℚ) + 1 ≤ a)
        ∧ (∀ b, ag.maxAnnAmt = some b →
            c.sched.count.total.amtApplied + c.appRate.getD 0 ≤ b)) := by
  unfold chainGuard
  cases hvn : c.validNext with
  | none =>
    cases hrid : c.rid <;>
      simp [hvn, hrid, Bool.and_eq_true, capLeQ_eq_true_iff, decide_eq_true_eq] <;>
      tauto
  | some b =>
    cases b <;> cases hrid : c.rid <;>
      simp [hvn, hrid, Bool.and_eq_true, capLeQ_eq_true_iff, decide_eq_true_eq] <;>
      tauto

theorem chainStep_done_inv (ag : AgPractices) (mode : DatePrioritization)
    (c : Chain) (s : SchedState) (h : chainStep ag mode c = .done s) :
    s = c.sched ∧ chainGuard ag c = false := by
  unfold chainStep at h
  by_cases hg : chainGuard ag c = true
  · rw [if_pos hg] at h
    exfalso
    rcases hrid : c.rid with _ | i <;> rw [hrid] at h
    · simp at h
    rcases had : c.appDate with _ | d <;> rw [had] at h
    · simp at h
    rcases hiv : c.interval with _ | iv <;> rw [hiv] at h
    · simp at h
    rcases har : c.appRate with _ | r <;> rw [har] at h
    · simp at h
    dsimp only at h
    rcases hp : prepareNextApp d iv i c.startDate (c.reverse.getD false) ag
        (c.sched.apps ++ [(d, r)]) (c.sched.count.commitApp i iv r) mode with _ | nxt <;>
      rw [hp] at h <;> simp at h
  · rw [if_neg hg] at h
    rw [Bool.not_eq_true] at hg
    simp only [ChainRes.done.injEq] at h
    exact ⟨h.symm, hg⟩

theorem chainStep_cont_inv (ag : AgPractices) (mode : DatePrioritization)
    (c c' : Chain) (h : chainStep ag mode c = .cont c') :
    chainGuard ag c = true ∧
    ∃ i d iv r nxt,
      c.rid = some i ∧ c.appDate = some d ∧ c.interval = some iv ∧ c.appRate = some r
      ∧ prepareNextApp d iv i c.startDate (c.reverse.getD false) ag
          (c.sched.apps ++ [(d, r)]) (c.sched.count.commitApp i iv r) mode = some nxt
      ∧ c'.sched = ⟨c.sched.count.commitApp i iv r, c.sched.apps ++ [(d, r)]⟩
      ∧ c'.startDate = c.startDate
      ∧ c'.appDate = nxt.date ∧ c'.interval = nxt.interval ∧ c'.rid = nxt.rid
      ∧ c'.appRate = (if nxt.validRate then
            some (adjustAppRate (nxt.rate.getD 0) (nxt.interval.getD .pre) ag
              (c.sched.count.commitApp i iv r))
          else nxt.rate)
      ∧ c'.validStart = c.validStart ∧ c'.validRate = nxt.validRate
      ∧ c'.validNext = nxt.validDate ∧ c'.reverse = nxt.reverse := by
  unfold chainStep at h
  by_cases hg : chainGuard ag c = true
  · rw [if_pos hg] at h
    refine ⟨hg, ?_⟩
    rcases hrid : c.rid with _ | i <;> rw [hrid] at h
    · simp at h
    rcases had : c.appDate with _ | d <;> rw [had] at h
    · simp at h
    rcases hiv : c.interval with _ | iv <;> rw [hiv] at h
    · simp at h
    rcases har : c.appRate with _ | r <;> rw [har] at h
    · simp at h
    dsimp only at h
    rcases hp : prepareNextApp d iv i c.startDate (c.reverse.getD false) ag
        (c.sched.apps ++ [(d, r)]) (c.sched.count.commitApp i iv r) mode with _ | nxt <;>
      rw [hp] at h
    · simp at h
    simp only [ChainRes.cont.injEq] at h
    exact ⟨i, d, iv, r, nxt, rfl, rfl, rfl, rfl, hp,
      by rw [← h], by rw [← h], by rw [← h], by rw [← h], by rw [← h],
      by rw [← h], by rw [← h], by rw [← h], by rw [← h], by rw [← h]⟩
  · rw [if_neg hg] at h
    simp at h

/-! ## Date range lemmas -/

theorem fold2021_range (x y : Int) (h : fold2021 x = some y) : 0 ≤ y ∧ y ≤ 364 := by
  unfold fold2021 at h
  split_ifs at h <;> simp_all <;> omega

theorem nextForwardDate_range (d mri y : Int) (hd : 0 ≤ d) (hd' : d ≤ 364)
    (hm : 0 ≤ mri) (h : nextForwardDate d mri = some y) : 0 ≤ y ∧ y ≤ 364 := by
  unfold nextForwardDate at h
  split_ifs at h with hc
  · exact fold2021_range _ _ h
  · simp only [Option.some.injEq] at h
    omega

theorem nextReverseDate_range (d mri y : Int) (hd : 0 ≤ d) (hd' : d ≤ 364)
    (hm : 0 ≤ mri) (h : nextReverseDate d mri = some y) : 0 ≤ y ∧ y ≤ 364 := by
  unfold nextReverseDate at h
  split_ifs at h with hc
  · exact fold2021_range _ _ h
  · simp only [Option.some.injEq] at h
    omega

/-! ## Valid-interval facts -/

theorem mem_validIntervals (t : RawTier) (iv : AppInterval) :
    iv ∈ t.validIntervals ↔ (t.ivMRI iv).isSome := by
  cases iv <;> cases hp : t.preMRI <;> cases hq : t.postMRI <;>
    simp [RawTier.validIntervals, RawTier.ivMRI, hp, hq]

theorem tier_mem_tiersList (ag : AgPractices) (i : Fin 4) :
    ag.tier i ∈ ag.tiersList := by
  fin_cases i <;> simp [AgPractices.tier, AgPractices.tiersList]

theorem anyIvMRI_of_tier (ag : AgPractices) (i : Fin 4) (iv : AppInterval) (m : Int)
    (h : (ag.tier i).ivMRI iv = some m) : qcAnyIvMRI ag iv = true := by
  unfold qcAnyIvMRI
  rw [List.any_eq_true]
  exact ⟨ag.tier i, tier_mem_tiersList ag i, by simp [h]⟩

theorem checkAppValidity_rid_isSome (d : Int) (iv : AppInterval) (ag : AgPractices)
    (rid : Option (Fin 4)) (apps : List (Int × ℚ)) (count : Ledger)
    (h : checkAppValidity d iv ag rid apps count = true) : ∃ j, rid = some j := by
  cases rid with
  | none => simp [checkAppValidity] at h
  | some j => exact ⟨j, rfl⟩

theorem prepareNextApp_pending (d : Int) (iv : AppInterval) (i : Fin 4) (start : Int)
    (rev : Bool) (ag : AgPractices) (apps : List (Int × ℚ)) (count : Ledger)
    (mode : DatePrioritization) (nxt : NextApp)
    (h : prepareNextApp d iv i start rev ag apps count mode = some nxt)
    (hvr : nxt.validRate = true) (hvd : nxt.validDate = some true) :
    ∃ nd, nxt.date = some nd ∧ nxt.interval = some (getInterval nd ag)
      ∧ checkAppValidity nd (getInterval nd ag) ag nxt.rid apps count = true
      ∧ (nextForwardDate d ((ag.tier i).mriFor iv) = some nd
         ∨ nextReverseDate d ((ag.tier i).mriFor iv) = some nd
         ∨ nextReverseDate start ((ag.tier i).mriFor iv) = some nd) := by
  unfold prepareNextApp at h
  dsimp only at h
  by_cases hrev : rev = true
  · rw [if_pos hrev] at h
    unfold getNextReverseDate at h
    rcases hnd : nextReverseDate d ((ag.tier i).mriFor iv) with _ | nd <;> rw [hnd] at h
    · simp at h
    dsimp only at h
    simp only [Option.some.injEq] at h
    subst h
    dsimp only at hvr hvd ⊢
    simp only [Option.some.injEq] at hvd
    rw [if_pos hvr] at hvd
    exact ⟨nd, rfl, rfl, hvd, Or.inr (Or.inl rfl)⟩
  · rw [if_neg hrev] at h
    rcases hfd : nextForwardDate d ((ag.tier i).mriFor iv) with _ | nfd <;> rw [hfd] at h
    · simp at h
    dsimp only at h
    by_cases hsel : (getRate ag count (getInterval nfd ag) mode nfd).valid = true
    · rw [if_pos hsel] at h
      by_cases hchk : checkAppValidity nfd (getInterval nfd ag) ag
          (getRate ag count (getInterval nfd ag) mode nfd).rid apps count = true
      · rw [if_pos hchk] at h
        simp only [Option.some.injEq] at h
        subst h
        exact ⟨nfd, rfl, rfl, hchk, Or.inl rfl⟩
      · rw [if_neg hchk] at h
        unfold getNextReverseDate at h
        rcases hnd : nextReverseDate start ((ag.tier i).mriFor iv) with _ | nd <;>
          rw [hnd] at h
        · simp at h
        dsimp only at h
        simp only [Option.some.injEq] at h
        subst h
        dsimp only at hvr hvd ⊢
        simp only [Option.some.injEq] at hvd
        rw [if_pos hvr] at hvd
        exact ⟨nd, rfl, rfl, hvd, Or.inr (Or.inr rfl)⟩
    · rw [if_neg hsel] at h
      simp only [Option.some.injEq] at h
      subst h
      simp at hvr

theorem commitApp_pre_pre (l : Ledger) (i : Fin 4) (r : ℚ) :
    (l.commitApp i .pre r).pre = l.pre.bump r := commitApp_ivC_same l i .pre r

theorem commitApp_post_pre (l : Ledger) (i : Fin 4) (r : ℚ) :
    (l.commitApp i .pre r).post = l.post :=
  commitApp_ivC_ne l i .pre .post r (by decide)

theorem commitApp_pre_post (l : Ledger) (i : Fin 4) (r : ℚ) :
    (l.commitApp i .post r).pre = l.pre :=
  commitApp_ivC_ne l i .post .pre r (by decide)

theorem commitApp_post_post (l : Ledger) (i : Fin 4) (r : ℚ) :
    (l.commitApp i .post r).post = l.post.bump r := commitApp_ivC_same l i .post r

theorem chainStep_master (ag : AgPractices) (mode : DatePrioritization) (L : Int)
    (hL : 1 ≤ L) (HM : mriLowerBounds ag L) (c c' : Chain)
    (hc : MasterChainInv ag L c) (h : chainStep ag mode c = .cont c') :
    MasterChainInv ag L c' ∧ c'.sched.apps.length = c.sched.apps.length + 1 := by
  obtain ⟨hg, i, d, iv, r, nxt, hrid, had, hiv, har, hp, hsched, hstart, hdate, hint,
    hrid', hrate, hvs, hvr, hvn, hrev⟩ := chainStep_cont_inv ag mode c c' h
  obtain ⟨⟨hyear, hsep, hledg, hgood, hcaps⟩, hsd, hpend⟩ := hc
  obtain ⟨ii, dd, iviv, hrid2, had2, hiv2, hcls, hd0, hd364, hval⟩ := hpend hg
  rw [hrid] at hrid2
  rw [had] at had2
  rw [hiv] at hiv2
  injection hrid2 with hii
  subst hii
  injection had2 with hdd
  subst hdd
  injection hiv2 with hvv
  subst hvv
  obtain ⟨hgs, hgr, hgn, hgpos, ⟨i2, hrid3, hrcap⟩, hanncap, hamtc⟩ :=
    (chainGuard_eq_true_iff ag c).1 hg
  have hgetd : c.appRate.getD 0 = r := by rw [har]; rfl
  rw [hgetd] at hgpos hamtc
  obtain ⟨j, hj, hmem, hnumcap, hamtvcap, hinstr, hmri, hphi⟩ :=
    (checkAppValidity_eq_true_iff d iv ag (some i) c.sched.apps c.sched.count).1 hval
  injection hj with hj'
  subst hj'
  obtain ⟨m, hm⟩ := Option.isSome_iff_exists.1 ((mem_validIntervals _ _).1 hmem)
  have hmL : L ≤ m := HM i iv m hm
  have hmriFor : (ag.tier i).mriFor iv = m := by simp [RawTier.mriFor, hm]
  have hm0 : 0 ≤ (ag.tier i).mriFor iv := by rw [hmriFor]; omega
  have happs : c'.sched.apps = c.sched.apps ++ [(d, r)] := by rw [hsched]
  have hcount : c'.sched.count = c.sched.count.commitApp i iv r := by rw [hsched]
  have hgi : getInterval d ag = iv := hcls.symm
  refine ⟨⟨⟨?_, ?_, ?_, ?_, ?_⟩, ?_, ?_⟩, ?_⟩
  · -- appsInYear
    intro p hp'
    rw [happs] at hp'
    rcases List.mem_append.1 hp' with hmem' | hmem'
    · exact hyear p hmem'
    · rw [List.mem_singleton] at hmem'
      subst hmem'
      exact ⟨hd0, hd364⟩
  · -- appsSeparated
    unfold appsSeparated
    rw [happs]
    refine List.pairwise_append.2 ⟨hsep, List.pairwise_singleton _ _, ?_⟩
    intro p hp' q hq
    rw [List.mem_singleton] at hq
    subst hq
    have h2 := hmri p hp'
    rw [hmriFor] at h2
    exact le_trans hmL h2
  · -- ledgerMatches
    obtain ⟨ht1, ht2, hp1, hp2, hq1, hq2⟩ := hledg
    cases iv with
    | pre =>
      refine ⟨?_, ?_, ?_, ?_, ?_, ?_⟩ <;>
        simp [happs, hcount, commitApp_total, commitApp_pre_pre, commitApp_post_pre,
          Counter.bump, ht1, ht2, hp1, hp2, hq1, hq2, preApps, postApps,
          List.filter_append, hgi]
    | post =>
      refine ⟨?_, ?_, ?_, ?_, ?_, ?_⟩ <;>
        simp [happs, hcount, commitApp_total, commitApp_pre_post, commitApp_post_post,
          Counter.bump, ht1, ht2, hp1, hp2, hq1, hq2, preApps, postApps,
          List.filter_append, hgi]
  · -- goodApps
    intro p hp'
    rw [happs] at hp'
    rcases List.mem_append.1 hp' with hmem' | hmem'
    · exact hgood p hmem'
    · rw [List.mem_singleton] at hmem'
      subst hmem'
      refine ⟨hgpos, ?_, ?_⟩
      · show withinPhi d (getInterval d ag) ag = false
        rw [hgi]
        exact hphi
      · show qcAnyIvMRI ag (getInterval d ag) = true
        rw [hgi]
        exact anyIvMRI_of_tier ag i iv m hm
  · -- capsOrZero
    obtain ⟨hc1, hc2, hc3⟩ := hcaps
    refine ⟨?_, ?_, ?_⟩
    · intro a ha
      left
      have hb := hanncap a ha
      rw [hcount, commitApp_total]
      simp only [Counter.bump]
      push_cast
      push_cast at hb
      linarith
    · intro b hb'
      left
      have hb := hamtc b hb'
      rw [hcount, commitApp_total]
      simpa [Counter.bump] using hb
    · intro iv' a ha
      by_cases hiv' : iv' = iv
      · subst hiv'
        left
        have hb := hnumcap a ha
        rw [hcount, commitApp_ivC_same]
        simp only [Counter.bump]
        push_cast
        push_cast at hb
        linarith
      · rw [hcount, commitApp_ivC_ne _ _ _ _ _ hiv']
        exact hc3 iv' a ha
  · -- startDate range
    rw [hstart]
    exact hsd
  · -- chainPending for the continued chain
    intro hg'
    obtain ⟨hgs', hgr', hgn', hpos', hex', hann', hamt'⟩ :=
      (chainGuard_eq_true_iff ag c').1 hg'
    rw [hvr] at hgr'
    rw [hvn] at hgn'
    obtain ⟨nd, hnd1, hnd2, hndval, hprov⟩ :=
      prepareNextApp_pending d iv i c.startDate (c.reverse.getD false) ag
        (c.sched.apps ++ [(d, r)]) (c.sched.count.commitApp i iv r) mode nxt hp hgr' hgn'
    obtain ⟨j', hj'⟩ := checkAppValidity_rid_isSome _ _ _ _ _ _ hndval
    refine ⟨j', nd, getInterval nd ag, ?_, ?_, ?_, rfl, ?_, ?_, ?_⟩
    · rw [hrid', hj']
    · rw [hdate, hnd1]
    · rw [hint, hnd2]
    · rcases hprov with hpr | hpr | hpr
      · exact (nextForwardDate_range d _ nd hd0 hd364 hm0 hpr).1
      · exact (nextReverseDate_range d _ nd hd0 hd364 hm0 hpr).1
      · exact (nextReverseDate_range c.startDate _ nd hsd.1 hsd.2 hm0 hpr).1
    · rcases hprov with hpr | hpr | hpr
      · exact (nextForwardDate_range d _ nd hd0 hd364 hm0 hpr).2
      · exact (nextReverseDate_range d _ nd hd0 hd364 hm0 hpr).2
      · exact (nextReverseDate_range c.startDate _ nd hsd.1 hsd.2 hm0 hpr).2
    · rw [happs, hcount]
      rw [hj'] at hndval
      exact hndval
  · -- one more application was committed
    rw [happs]
    simp

/-! ## Fueled-run inductions -/

theorem apps_length_le (L : Int) (hL : 1 ≤ L) (s : SchedState)
    (hy : appsInYear s) (hs : appsSeparated L s) : s.apps.length ≤ 365 := by
  have hnd : (s.apps.map Prod.fst).Nodup := by
    rw [List.Nodup, List.pairwise_map]
    refine hs.imp ?_
    intro p q hpq
    intro heq
    rw [heq] at hpq
    simp at hpq
    omega
  have hsub : (s.apps.map Prod.fst).toFinset ⊆ Finset.Icc (0 : ℤ) 364 := by
    intro x hx
    rw [List.mem_toFinset, List.mem_map] at hx
    obtain ⟨p, hp, rfl⟩ := hx
    rw [Finset.mem_Icc]
    exact hy p hp
  have hcard := Finset.card_le_card hsub
  rw [List.toFinset_card_of_nodup hnd] at hcard
  rw [Int.card_Icc] at hcard
  simpa using hcard

theorem runChain_master_done (ag : AgPractices) (mode : DatePrioritization) (L : Int)
    (hL : 1 ≤ L) (HM : mriLowerBounds ag L) :
    ∀ (fuel : ℕ) (c : Chain) (s : SchedState), MasterChainInv ag L c →
      runChain ag mode fuel c = .done s → MasterInv ag L s := by
  intro fuel
  induction fuel with
  | zero => intro c s hc h; simp [runChain] at h
  | succ n ih =>
    intro c s hc h
    unfold runChain at h
    cases hstep : chainStep ag mode c with
    | crash => rw [hstep] at h; simp at h
    | done s0 =>
      rw [hstep] at h
      simp only [RunRes.done.injEq] at h
      subst h
      obtain ⟨hcs, _⟩ := chainStep_done_inv ag mode c s0 hstep
      rw [hcs]
      exact hc.1
    | cont c' =>
      rw [hstep] at h
      exact ih c' s (chainStep_master ag mode L hL HM c c' hc hstep).1 h

theorem runChain_no_fuelOut (ag : AgPractices) (mode : DatePrioritization) (L : Int)
    (hL : 1 ≤ L) (HM : mriLowerBounds ag L) :
    ∀ (fuel : ℕ) (c : Chain), MasterChainInv ag L c →
      365 < fuel + c.sched.apps.length → runChain ag mode fuel c ≠ .fuelOut := by
  intro fuel
  induction fuel with
  | zero =>
    intro c hc hlen
    exfalso
    have := apps_length_le L hL c.sched hc.1.1 hc.1.2.1
    omega
  | succ n ih =>
    intro c hc hlen hcontra
    unfold runChain at hcontra
    cases hstep : chainStep ag mode c <;> rw [hstep] at hcontra
    · simp at hcontra
    · simp at hcontra
    · obtain ⟨hc', hlen'⟩ := chainStep_master ag mode L hL HM c _ hc hstep
      exact ih _ hc' (by omega) hcontra

theorem initChain_master (ag : AgPractices) (mode : DatePrioritization) (L : Int)
    (s : SchedState) (dstart : Int) (hs : MasterInv ag L s)
    (h0 : 0 ≤ dstart) (h1 : dstart ≤ 364) :
    MasterChainInv ag L (initChain ag mode s dstart) := by
  refine ⟨hs, ⟨h0, h1⟩, ?_⟩
  intro hg
  obtain ⟨hgs, hgr, hgn, hgpos, ⟨i, hrid, hrc⟩, hann, hamt⟩ :=
    (chainGuard_eq_true_iff ag (initChain ag mode s dstart)).1 hg
  refine ⟨i, dstart, getInterval dstart ag, hrid, rfl, rfl, rfl, h0, h1, ?_⟩
  have hgs' : checkAppValidity dstart (getInterval dstart ag) ag
      (getRate ag s.count (getInterval dstart ag) mode dstart).rid s.apps s.count
      = true := hgs
  have hr : (getRate ag s.count (getInterval dstart ag) mode dstart).rid = some i := hrid
  rw [hr] at hgs'
  exact hgs'

theorem masterInv_init (ag : AgPractices) (L : Int) : MasterInv ag L initSchedState := by
  refine ⟨?_, ?_, ?_, ?_, ?_⟩
  · intro p hp
    simp [initSchedState] at hp
  · exact List.Pairwise.nil
  · exact ⟨rfl, rfl, rfl, rfl, rfl, rfl⟩
  · intro p hp
    simp [initSchedState] at hp
  · exact ⟨fun a _ => Or.inr rfl, fun b _ => Or.inr rfl, fun iv a _ => Or.inr (by cases iv <;> rfl)⟩

theorem runPass_master (ag : AgPractices) (mode : DatePrioritization) (L : Int)
    (hL : 1 ≤ L) (HM : mriLowerBounds ag L) :
    ∀ (stream : List Int) (s : SchedState), MasterInv ag L s →
      (∀ d ∈ stream, 0 ≤ d ∧ d ≤ 364) →
      (runPass ag mode 366 stream s ≠ .fuelOut)
      ∧ (∀ s', runPass ag mode 366 stream s = .stopped s' → MasterInv ag L s')
      ∧ (∀ s', runPass ag mode 366 stream s = .completed s' → MasterInv ag L s') := by
  intro stream
  induction stream with
  | nil =>
    intro s hs _
    refine ⟨by simp [runPass], ?_, ?_⟩
    · intro s' h
      simp [runPass] at h
    · intro s' h
      simp only [runPass, PassRes.completed.injEq] at h
      rwa [← h]
  | cons d rest ih =>
    intro s hs hstr
    have hd := hstr d (by simp)
    have hchain := initChain_master ag mode L s d hs hd.1 hd.2
    have hnf := runChain_no_fuelOut ag mode L hL HM 366 (initChain ag mode s d)
      hchain (by omega)
    cases hrc : runChain ag mode 366 (initChain ag mode s d) with
    | crash =>
      refine ⟨?_, ?_, ?_⟩
      · intro hcontra
        simp [runPass, hrc] at hcontra
      · intro s' h
        simp [runPass, hrc] at h
      · intro s' h
        simp [runPass, hrc] at h
    | fuelOut => exact absurd hrc hnf
    | done s1 =>
      have hs1 : MasterInv ag L s1 :=
        runChain_master_done ag mode L hL HM 366 _ s1 hchain hrc
      by_cases horacle : noMoreAppsCanBeMade s1.count ag = true
      · refine ⟨?_, ?_, ?_⟩
        · intro hcontra
          simp [runPass, hrc, if_pos horacle] at hcontra
        · intro s' h
          simp only [runPass, hrc, if_pos horacle, PassRes.stopped.injEq] at h
          rwa [← h]
        · intro s' h
          simp [runPass, hrc, if_pos horacle] at h
      · obtain ⟨ih1, ih2, ih3⟩ := ih s1 hs1 (fun d' hd' => hstr d' (by simp [hd']))
        refine ⟨?_, ?_, ?_⟩
        · intro hcontra
          simp only [runPass, hrc, if_neg horacle] at hcontra
          exact ih1 hcontra
        · intro s' h
          simp only [runPass, hrc, if_neg horacle] at h
          exact ih2 s' h
        · intro s' h
          simp only [runPass, hrc, if_neg horacle] at h
          exact ih3 s' h

theorem runPasses_master (ag : AgPractices) (mode : DatePrioritization)
    (streams : ℕ → List Int) (L : Int) (hL : 1 ≤ L) (HM : mriLowerBounds ag L)
    (hstr : ∀ k, ∀ d ∈ streams k, 0 ≤ d ∧ d ≤ 364) :
    ∀ (rem idx : ℕ) (s : SchedState), MasterInv ag L s →
      (runPasses ag mode streams 366 rem idx s ≠ .fuelOut)
      ∧ (∀ s', runPasses ag mode streams 366 rem idx s = .done s' → MasterInv ag L s') := by
  intro rem
  induction rem with
  | zero =>
    intro idx s hs
    refine ⟨by simp [runPasses], ?_⟩
    intro s' h
    simp only [runPasses, RunRes.done.injEq] at h
    rwa [← h]
  | succ n ih =>
    intro idx s hs
    obtain ⟨h1, h2, h3⟩ := runPass_master ag mode L hL HM (streams idx) s hs (hstr idx)
    cases hrp : runPass ag mode 366 (streams idx) s with
    | crash =>
      refine ⟨?_, ?_⟩
      · intro hcontra
        simp [runPasses, hrp] at hcontra
      · intro s' h
        simp [runPasses, hrp] at h
    | fuelOut => exact absurd hrp h1
    | stopped s1 =>
      refine ⟨?_, ?_⟩
      · intro hcontra
        simp [runPasses, hrp] at hcontra
      · intro s' h
        simp only [runPasses, hrp, RunRes.done.injEq] at h
        rw [← h]
        exact h2 s1 hrp
    | completed s1 =>
      obtain ⟨ih1, ih2⟩ := ih (idx + 1) s1 (h3 s1 hrp)
      refine ⟨?_, ?_⟩
      · intro hcontra
        simp only [runPasses, hrp] at hcontra
        exact ih1 hcontra
      · intro s' h
        simp only [runPasses, hrp] at h
        exact ih2 s' h

/-- C2 (amended).  Provided every MRI the label record defines is at
least 1 day (so the Validity Gate never accepts a duplicate date) and the
realized candidate start dates lie in the reference year, the Scheduler
halts: the model with per-chain fuel 366 never exhausts its fuel — the
outer candidate stream is replayed at most the fixed 5 times by
construction of runPasses, and every inner application loop commits a
fresh date out of the at most 365 available.  (The unrestricted claim is
false: see the zero-MRI divergence counterexample.) -/
theorem scheduler_always_halts (ag : AgPractices) (mode : DatePrioritization)
    (streams : ℕ → List Int) (HM : mriLowerBounds ag 1)
    (hstr : ∀ k, ∀ d ∈ streams k, 0 ≤ d ∧ d ≤ 364) :
    assignApplicationDates ag mode streams 366 ≠ .fuelOut := by
  unfold assignApplicationDates
  exact (runPasses_master ag mode streams 1 le_rfl HM hstr 5 0 initSchedState
    (masterInv_init ag 1)).1

/-- Witness for C2 (amended): the small record `wAg` (all defined MRIs are
7 ≥ 1) on the single-candidate stream [0] halts. -/
theorem scheduler_always_halts_witness :
    assignApplicationDates wAg .maxRate (fun _ => [0]) 366 ≠ .fuelOut :=
  scheduler_always_halts wAg .maxRate (fun _ => [0])
    (by
      intro i iv m h
      fin_cases i <;> cases iv <;>
        simp [wAg, emptyTier, AgPractices.tier, RawTier.ivMRI] at h <;> omega)
    (by
      intro k d hd
      simp at hd
      subst hd
      exact ⟨le_rfl, by norm_num⟩)

/-! ## Zero-MRI divergence -/

theorem withinMri_zero (d : Int) (apps : List (Int × ℚ)) :
    withinMri d apps 0 = false := by
  simp only [withinMri, List.any_eq_false, decide_eq_true_eq]
  intro p _
  exact not_lt.2 (abs_nonneg _)

theorem zeroMri_getRate (count : Ledger) (iv : AppInterval) (d : Int) :
    getRate cexZeroMriAg count iv .maxRate d = ⟨some 0, 1, true⟩ := by
  have hfr : List.finRange 4 = ([0, 1, 2, 3] : List (Fin 4)) := by decide
  simp [getRate, hfr, getRateMaxGo, cexZeroMriAg, AgPractices.tier,
    RawTier.validIntervals, AgPractices.ivMaxNumApps, AgPractices.ivMaxAmt,
    capLtQ]

theorem zeroMri_check (apps : List (Int × ℚ)) (count : Ledger) :
    checkAppValidity 0 .pre cexZeroMriAg (some 0) apps count = true := by
  have hmri : (cexZeroMriAg.tier 0).mriFor .pre = 0 := by
    simp [cexZeroMriAg, AgPractices.tier, RawTier.mriFor, RawTier.ivMRI]
  simp [checkAppValidity, cexZeroMriAg, AgPractices.tier, RawTier.validIntervals,
    AgPractices.ivMaxNumApps, AgPractices.ivMaxAmt, capLeQ,
    meetsInstructionConstraints, RawTier.mriFor, RawTier.ivMRI, withinMri_zero,
    withinPhi, AgPractices.phiInt]

theorem zeroMri_getInterval : getInterval 0 cexZeroMriAg = .pre := by
  simp [getInterval, cexZeroMriAg]

theorem zeroMri_adjust (count : Ledger) :
    adjustAppRate 1 .pre cexZeroMriAg count = 1 := by
  norm_num [adjustAppRate, cexZeroMriAg, AgPractices.ivMaxAmt]

theorem zeroMri_prepare (apps : List (Int × ℚ)) (count : Ledger) :
    prepareNextApp 0 .pre 0 0 false cexZeroMriAg apps count .maxRate
      = some ⟨some 0, some .pre, some true, true, some 0, some 1, some false⟩ := by
  have hmri : (cexZeroMriAg.tier 0).mriFor .pre = 0 := by
    simp [cexZeroMriAg, AgPractices.tier, RawTier.mriFor, RawTier.ivMRI]
  have hf : nextForwardDate 0 0 = some 0 := by
    simp [nextForwardDate]
  unfold prepareNextApp
  rw [if_neg (by simp)]
  rw [hmri, hf]
  dsimp only
  rw [zeroMri_getInterval, zeroMri_getRate]
  dsimp only
  rw [if_pos rfl, if_pos (zeroMri_check apps count)]

theorem zeroMri_guard (c : Chain) (hc : zeroMriChainInv c) :
    chainGuard cexZeroMriAg c = true := by
  obtain ⟨h1, h2, h3, h4, h5, h6, h7, h8, h9⟩ := hc
  rw [chainGuard_eq_true_iff]
  refine ⟨h5, h6, h7, ?_, ⟨0, h3, ?_⟩, ?_, ?_⟩
  · rw [h4]
    norm_num
  · intro a ha
    simp [cexZeroMriAg, AgPractices.tier] at ha
  · intro a ha
    simp [cexZeroMriAg] at ha
  · intro b hb
    simp [cexZeroMriAg] at hb

theorem zeroMri_step (c : Chain) (hc : zeroMriChainInv c) :
    ∃ c', chainStep cexZeroMriAg .maxRate c = .cont c' ∧ zeroMriChainInv c' := by
  have hg := zeroMri_guard c hc
  obtain ⟨h1, h2, h3, h4, h5, h6, h7, h8, h9⟩ := hc
  unfold chainStep
  rw [if_pos hg, h3, h1, h2, h4]
  dsimp only
  rw [h9, h8]
  dsimp only [Option.getD]
  rw [zeroMri_prepare]
  dsimp only
  refine ⟨_, rfl, ?_⟩
  unfold zeroMriChainInv
  refine ⟨rfl, rfl, rfl, ?_, h5, rfl, rfl, rfl, rfl⟩
  rw [if_pos rfl, zeroMri_adjust]

theorem zeroMri_runChain : ∀ (fuel : ℕ) (c : Chain), zeroMriChainInv c →
    runChain cexZeroMriAg .maxRate fuel c = .fuelOut := by
  intro fuel
  induction fuel with
  | zero => intro c _; rfl
  | succ n ih =>
    intro c hc
    obtain ⟨c', hstep, hc'⟩ := zeroMri_step c hc
    unfold runChain
    rw [hstep]
    exact ih c' hc'

theorem zeroMri_init (s : SchedState) :
    zeroMriChainInv (initChain cexZeroMriAg .maxRate s 0) := by
  unfold initChain
  dsimp only
  rw [zeroMri_getInterval, zeroMri_getRate]
  dsimp only
  unfold zeroMriChainInv
  refine ⟨rfl, rfl, rfl, ?_, ?_, rfl, rfl, rfl, rfl⟩
  · rw [if_pos rfl, zeroMri_adjust]
  · exact zeroMri_check s.apps s.count

theorem zeroMri_assign (fuel : ℕ) :
    assignApplicationDates cexZeroMriAg .maxRate (fun _ => [0]) fuel = .fuelOut := by
  have h1 := zeroMri_runChain fuel (initChain cexZeroMriAg .maxRate initSchedState 0)
    (zeroMri_init initSchedState)
  simp [assignApplicationDates, runPasses, runPass, h1]

/-- C2 counterexample.  On a label record with a defined MRI of 0 days and
no caps at all, the inner application while loop of the Scheduler commits
the same date forever (the Validity Gate's MRI test `|gap| < 0` never
fires): no amount of model fuel completes the run, i.e. the source loops
forever — the claim that the Scheduler always terminates for every label
record is false. -/
theorem scheduler_divergence_cex :
    ¬ SchedHalts cexZeroMriAg .maxRate (fun _ => [0]) := by
  rintro ⟨fuel, hf⟩
  exact hf (zeroMri_assign fuel)

/-! ## Annual-cap bounds (inner-loop guard consequences) -/

theorem chainStep_total_bounds (ag : AgPractices) (mode : DatePrioritization)
    (c c' : Chain) (h : chainStep ag mode c = .cont c') :
    (∀ a, ag.maxAnnNumApps = some a → (c'.sched.count.total.numApps : ℚ) ≤ a)
    ∧ (∀ b, ag.maxAnnAmt = some b → c'.sched.count.total.amtApplied ≤ b) := by
  obtain ⟨hg, i, d, iv, r, nxt, hrid, had, hiv, har, hp, hsched, hstart, hdate, hint,
    hrid', hrate, hvs, hvr, hvn, hrev⟩ := chainStep_cont_inv ag mode c c' h
  obtain ⟨hgs, hgr, hgn, hgpos, ⟨i2, hrid3, hrcap⟩, hanncap, hamtc⟩ :=
    (chainGuard_eq_true_iff ag c).1 hg
  have hgetd : c.appRate.getD 0 = r := by rw [har]; rfl
  rw [hgetd] at hamtc
  have hcount : c'.sched.count = c.sched.count.commitApp i iv r := by rw [hsched]
  constructor
  · intro a ha
    have hb := hanncap a ha
    rw [hcount, commitApp_total]
    simp only [Counter.bump]
    push_cast
    push_cast at hb
    linarith
  · intro b hb'
    have hb := hamtc b hb'
    rw [hcount, commitApp_total]
    simpa [Counter.bump] using hb

theorem runChain_total_bounds (ag : AgPractices) (mode : DatePrioritization) :
    ∀ (fuel : ℕ) (c : Chain) (s : SchedState),
      ((∀ a, ag.maxAnnNumApps = some a →
          ((c.sched.count.total.numApps : ℚ) ≤ a ∨ c.sched.count.total.numApps = 0))
        ∧ (∀ b, ag.maxAnnAmt = some b →
          (c.sched.count.total.amtApplied ≤ b ∨ c.sched.count.total.amtApplied = 0))) →
      runChain ag mode fuel c = .done s →
      ((∀ a, ag.maxAnnNumApps = some a →
          ((s.count.total.numApps : ℚ) ≤ a ∨ s.count.total.numApps = 0))
        ∧ (∀ b, ag.maxAnnAmt = some b →
          (s.count.total.amtApplied ≤ b ∨ s.count.total.amtApplied = 0))) := by
  intro fuel
  induction fuel with
  | zero => intro c s _ h; simp [runChain] at h
  | succ n ih =>
    intro c s hc h
    unfold runChain at h
    cases hstep : chainStep ag mode c with
    | crash => rw [hstep] at h; simp at h
    | done s0 =>
      rw [hstep] at h
      simp only [RunRes.done.injEq] at h
      subst h
      obtain ⟨hcs, _⟩ := chainStep_done_inv ag mode c s0 hstep
      rw [hcs]
      exact hc
    | cont c' =>
      rw [hstep] at h
      obtain ⟨hb1, hb2⟩ := chainStep_total_bounds ag mode c c' hstep
      exact ih c' s ⟨fun a ha => Or.inl (hb1 a ha), fun b hb => Or.inl (hb2 b hb)⟩ h

theorem runPass_total_bounds (ag : AgPractices) (mode : DatePrioritization)
    (fuel : ℕ) :
    ∀ (stream : List Int) (s : SchedState),
      ((∀ a, ag.maxAnnNumApps = some a →
          ((s.count.total.numApps : ℚ) ≤ a ∨ s.count.total.numApps = 0))
        ∧ (∀ b, ag.maxAnnAmt = some b →
          (s.count.total.amtApplied ≤ b ∨ s.count.total.amtApplied = 0))) →
      ∀ s', (runPass ag mode fuel stream s = .stopped s'
          ∨ runPass ag mode fuel stream s = .completed s') →
        ((∀ a, ag.maxAnnNumApps = some a →
            ((s'.count.total.numApps : ℚ) ≤ a ∨ s'.count.total.numApps = 0))
          ∧ (∀ b, ag.maxAnnAmt = some b →
            (s'.count.total.amtApplied ≤ b ∨ s'.count.total.amtApplied = 0))) := by
  intro stream
  induction stream with
  | nil =>
    intro s hs s' h
    rcases h with h | h
    · simp [runPass] at h
    · simp only [runPass, PassRes.completed.injEq] at h
      rwa [← h]
  | cons d rest ih =>
    intro s hs s' h
    cases hrc : runChain ag mode fuel (initChain ag mode s d) with
    | crash =>
      rcases h with h | h <;> simp [runPass, hrc] at h
    | fuelOut =>
      rcases h with h | h <;> simp [runPass, hrc] at h
    | done s1 =>
      have hs1 := runChain_total_bounds ag mode fuel (initChain ag mode s d) s1 hs hrc
      by_cases horacle : noMoreAppsCanBeMade s1.count ag = true
      · rcases h with h | h
        · simp only [runPass, hrc, if_pos horacle, PassRes.stopped.injEq] at h
          rwa [← h]
        · simp [runPass, hrc, if_pos horacle] at h
      · rcases h with h | h
        · simp only [runPass, hrc, if_neg horacle] at h
          exact ih s1 hs1 s' (Or.inl h)
        · simp only [runPass, hrc, if_neg horacle] at h
          exact ih s1 hs1 s' (Or.inr h)

theorem runPasses_total_bounds (ag : AgPractices) (mode : DatePrioritization)
    (streams : ℕ → List Int) (fuel : ℕ) :
    ∀ (rem idx : ℕ) (s : SchedState),
      ((∀ a, ag.maxAnnNumApps = some a →
          ((s.count.total.numApps : ℚ) ≤ a ∨ s.count.total.numApps = 0))
        ∧ (∀ b, ag.maxAnnAmt = some b →
          (s.count.total.amtApplied ≤ b ∨ s.count.total.amtApplied = 0))) →
      ∀ s', runPasses ag mode streams fuel rem idx s = .done s' →
        ((∀ a, ag.maxAnnNumApps = some a →
            ((s'.count.total.numApps : ℚ) ≤ a ∨ s'.count.total.numApps = 0))
          ∧ (∀ b, ag.maxAnnAmt = some b →
            (s'.count.total.amtApplied ≤ b ∨ s'.count.total.amtApplied = 0))) := by
  intro rem
  induction rem with
  | zero =>
    intro idx s hs s' h
    simp only [runPasses, RunRes.done.injEq] at h
    rwa [← h]
  | succ n ih =>
    intro idx s hs s' h
    cases hrp : runPass ag mode fuel (streams idx) s with
    | crash => simp [runPasses, hrp] at h
    | fuelOut => simp [runPasses, hrp] at h
    | stopped s1 =>
      simp only [runPasses, hrp, RunRes.done.injEq] at h
      rw [← h]
      exact runPass_total_bounds ag mode fuel (streams idx) s hs s1 (Or.inl hrp)
    | completed s1 =>
      simp only [runPasses, hrp] at h
      exact ih (idx + 1) s1
        (runPass_total_bounds ag mode fuel (streams idx) s hs s1 (Or.inr hrp)) s' h

/-- C8 (amended).  Provided the annual caps, where specified, are
nonnegative, every completed Scheduler run's final ledger satisfies
Total.num_apps ≤ MaxAnnNumApps and Total.amt_applied ≤ MaxAnnAmt + 0.001
(the inner-loop condition in fact enforces the amount bound without the
0.001 slack); and — with no hypotheses at all — every commit of the inner
application loop re-establishes both bounds.  (Without the nonnegativity
hypothesis the claim is false: a negative cap is violated by the untouched
zero ledger of a run that commits nothing.) -/
theorem annual_caps_final (ag : AgPractices) (mode : DatePrioritization)
    (streams : ℕ → List Int) (fuel : ℕ) (s : SchedState)
    (hA : ∀ a, ag.maxAnnNumApps = some a → 0 ≤ a)
    (hB : ∀ b, ag.maxAnnAmt = some b → 0 ≤ b)
    (hrun : assignApplicationDates ag mode streams fuel = .done s) :
    ((∀ a, ag.maxAnnNumApps = some a → (s.count.total.numApps : ℚ) ≤ a)
      ∧ (∀ b, ag.maxAnnAmt = some b → s.count.total.amtApplied ≤ b + 1/1000))
    ∧ (∀ c c', chainStep ag mode c = .cont c' →
        (∀ a, ag.maxAnnNumApps = some a → (c'.sched.count.total.numApps : ℚ) ≤ a)
        ∧ (∀ b, ag.maxAnnAmt = some b →
            c'.sched.count.total.amtApplied ≤ b + 1/1000)) := by
  have hfin := runPasses_total_bounds ag mode streams fuel 5 0 initSchedState
    ⟨fun a _ => Or.inr rfl, fun b _ => Or.inr rfl⟩ s hrun
  constructor
  · constructor
    · intro a ha
      rcases hfin.1 a ha with h | h
      · exact h
      · rw [h]
        exact_mod_cast hA a ha
    · intro b hb
      rcases hfin.2 b hb with h | h
      · linarith
      · rw [h]
        have := hB b hb
        linarith
  · intro c c' hstep
    obtain ⟨h1, h2⟩ := chainStep_total_bounds ag mode c c' hstep
    exact ⟨h1, fun b hb => by have := h2 b hb; linarith⟩

/-- Witness for C8 (amended): the `wAg` run on stream [0] completes with
ledger Total = (2 applications, amount 4), within its caps (2, 10). -/
theorem annual_caps_final_witness :
    ((∀ a, wAg.maxAnnNumApps = some a → (wFinal.count.total.numApps : ℚ) ≤ a)
      ∧ (∀ b, wAg.maxAnnAmt = some b → wFinal.count.total.amtApplied ≤ b + 1/1000))
    ∧ (∀ c c', chainStep wAg .maxRate c = .cont c' →
        (∀ a, wAg.maxAnnNumApps = some a → (c'.sched.count.total.numApps : ℚ) ≤ a)
        ∧ (∀ b, wAg.maxAnnAmt = some b →
            c'.sched.count.total.amtApplied ≤ b + 1/1000)) :=
  annual_caps_final wAg .maxRate (fun _ => [0]) 366 wFinal
    (by
      intro a ha
      injection ha with h
      rw [← h]
      norm_num)
    (by
      intro b hb
      injection hb with h
      rw [← h]
      norm_num)
    (by with_unfolding_all decide)

/-- C8 counterexample.  With a (pathological) negative annual cap the run
completes untouched and the final zero ledger violates the claimed bound
Total.num_apps ≤ MaxAnnNumApps. -/
theorem annual_caps_negative_cap_cex :
    assignApplicationDates cexNegCapAg .maxRate (fun _ => []) 1 = .done initSchedState
    ∧ cexNegCapAg.maxAnnNumApps = some (-1)
    ∧ ¬((initSchedState.count.total.numApps : ℚ) ≤ -1) := by
  refine ⟨by with_unfolding_all decide, rfl, ?_⟩
  norm_num [initSchedState, zeroLedger]

/-! ## Validator-side helper lemmas for the round-trip analysis -/

theorem zipFilterLength (p : Int → Bool) :
    ∀ (xs : List Int) (ys : List ℚ), xs.length = ys.length →
      ((xs.zip ys).filter (fun q => p q.1)).length = xs.countP p := by
  intro xs
  induction xs with
  | nil => intro ys _; simp
  | cons x xt ih =>
    intro ys hlen
    cases ys with
    | nil => simp at hlen
    | cons y yt =>
      have hlen' : xt.length = yt.length := by simpa using hlen
      simp only [List.zip_cons_cons, List.filter_cons, List.countP_cons]
      by_cases hx : p x = true
      · simp [hx, ih yt hlen']
      · simp [hx, ih yt hlen']

theorem zipFilterSumLe (p : Int → Bool) :
    ∀ (xs : List Int) (ys : List ℚ), (∀ y ∈ ys, 0 ≤ y) →
      (((xs.zip ys).filter (fun q => p q.1)).map Prod.snd).sum ≤ ys.sum := by
  intro xs
  induction xs with
  | nil => intro ys hy; simpa using List.sum_nonneg hy
  | cons x xt ih =>
    intro ys hy
    cases ys with
    | nil => simp
    | cons y yt =>
      have hy' : ∀ z ∈ yt, 0 ≤ z := fun z hz => hy z (by simp [hz])
      have h0 : 0 ≤ y := hy y (by simp)
      have hih := ih yt hy'
      simp only [List.zip_cons_cons, List.filter_cons, List.sum_cons]
      by_cases hx : p x = true
      · simp only [hx, if_true, List.map_cons, List.sum_cons]
        linarith
      · simp only [hx, if_false, Bool.false_eq_true]
        linarith

/-- The validator's inline interval split agrees with get_interval. -/
theorem qcIsPost_eq_getInterval (ag : AgPractices) (d : Int) :
    qcIsPost ag.emergence ag.harvest d = decide (getInterval d ag = AppInterval.post) := by
  unfold qcIsPost getInterval
  by_cases h1 : ag.emergence < ag.harvest
  · rw [if_pos h1, if_pos h1]
    by_cases h2 : ag.emergence ≤ d ∧ d ≤ ag.harvest
    · rw [if_pos h2]
      simp [h2]
    · rw [if_neg h2]
      simp [h2]
  · rw [if_neg h1, if_neg h1]
    by_cases h2 : ag.harvest < d ∧ d < ag.emergence
    · rw [if_pos h2]
      simp [h2]
    · rw [if_neg h2]
      simp [h2]

theorem not_qcIsPost_eq (ag : AgPractices) (d : Int) :
    (!qcIsPost ag.emergence ag.harvest d) = decide (getInterval d ag = AppInterval.pre) := by
  rw [qcIsPost_eq_getInterval]
  cases h : getInterval d ag <;> simp [h]

theorem qcPreCount_eq (ag : AgPractices) (s : SchedState) :
    qcPreCount ag s.apps = (preApps ag s).length := by
  have h1 : qcPreCount ag s.apps
      = (qcSortedDates s.apps).countP (fun d => !qcIsPost ag.emergence ag.harvest d) :=
    zipFilterLength (fun d => !qcIsPost ag.emergence ag.harvest d)
      (qcSortedDates s.apps) (s.apps.map Prod.snd)
      (by simp [qcSortedDates, List.length_insertionSort])
  have h2 : (qcSortedDates s.apps).countP (fun d => !qcIsPost ag.emergence ag.harvest d)
      = (s.apps.map Prod.fst).countP (fun d => !qcIsPost ag.emergence ag.harvest d) :=
    (List.perm_insertionSort _ _).countP_eq _
  have h3 : (s.apps.map Prod.fst).countP (fun d => !qcIsPost ag.emergence ag.harvest d)
      = s.apps.countP (fun q => !qcIsPost ag.emergence ag.harvest q.1) :=
    List.countP_map _ Prod.fst s.apps
  have h4 : s.apps.countP (fun q => !qcIsPost ag.emergence ag.harvest q.1)
      = s.apps.countP (fun q => decide (getInterval q.1 ag = AppInterval.pre)) :=
    List.countP_congr (fun a _ => by rw [not_qcIsPost_eq])
  have h5 : s.apps.countP (fun q => decide (getInterval q.1 ag = AppInterval.pre))
      = (preApps ag s).length := by
    unfold preApps
    rw [List.countP_eq_length_filter]
  exact h1.trans (h2.trans (h3.trans (h4.trans h5)))

theorem qcPostCount_eq (ag : AgPractices) (s : SchedState) :
    qcPostCount ag s.apps = (postApps ag s).length := by
  have h1 : qcPostCount ag s.apps
      = (qcSortedDates s.apps).countP (fun d => qcIsPost ag.emergence ag.harvest d) :=
    zipFilterLength (fun d => qcIsPost ag.emergence ag.harvest d)
      (qcSortedDates s.apps) (s.apps.map Prod.snd)
      (by simp [qcSortedDates, List.length_insertionSort])
  have h2 : (qcSortedDates s.apps).countP (fun d => qcIsPost ag.emergence ag.harvest d)
      = (s.apps.map Prod.fst).countP (fun d => qcIsPost ag.emergence ag.harvest d) :=
    (List.perm_insertionSort _ _).countP_eq _
  have h3 : (s.apps.map Prod.fst).countP (fun d => qcIsPost ag.emergence ag.harvest d)
      = s.apps.countP (fun q => qcIsPost ag.emergence ag.harvest q.1) :=
    List.countP_map _ Prod.fst s.apps
  have h4 : s.apps.countP (fun q => qcIsPost ag.emergence ag.harvest q.1)
      = s.apps.countP (fun q => decide (getInterval q.1 ag = AppInterval.post)) :=
    List.countP_congr (fun a _ => by rw [qcIsPost_eq_getInterval])
  have h5 : s.apps.countP (fun q => decide (getInterval q.1 ag = AppInterval.post))
      = (postApps ag s).length := by
    unfold postApps
    rw [List.countP_eq_length_filter]
  exact h1.trans (h2.trans (h3.trans (h4.trans h5)))

theorem consecutiveGaps_ge (L : Int) :
    ∀ l : List Int, List.Sorted (· ≤ ·) l →
      l.Pairwise (fun a b => L ≤ |a - b|) →
      ∀ g ∈ consecutiveGaps l, L ≤ g := by
  intro l
  induction l with
  | nil => intro _ _ g hg; simp [consecutiveGaps] at hg
  | cons a t ih =>
    intro hs hp g hg
    cases t with
    | nil => simp [consecutiveGaps] at hg
    | cons b t' =>
      rw [show consecutiveGaps (a :: b :: t') = (b - a) :: consecutiveGaps (b :: t') from rfl] at hg
      rcases List.mem_cons.1 hg with rfl | hmem
      · have hab : a ≤ b := (List.sorted_cons.1 hs).1 b (by simp)
        have habs : L ≤ |a - b| := (List.pairwise_cons.1 hp).1 b (by simp)
        rw [abs_sub_comm, abs_of_nonneg (by omega : (0:ℤ) ≤ b - a)] at habs
        exact habs
      · exact ih (List.sorted_cons.1 hs).2 (List.pairwise_cons.1 hp).2 g hmem

theorem qcBatchFileRun_some (ag : AgPractices) (apps : List (Int × ℚ)) (n : ℕ) (P : Int)
    (hphi : ag.phi = some P) (hab : ¬(-366 ≤ ag.harvest - P ∧ ag.harvest - P ≤ -1)) :
    qcBatchFileRun ag apps n = some
      { annNumOk := qcLe ((apps.map Prod.fst).length : ℚ) ag.maxAnnNumApps
      , annAmtOk := qcLeT (apps.map Prod.snd).sum (2/1000) ag.maxAnnAmt
      , preNumOk := qcLe (qcPreCount ag apps : ℚ) (qcIvNumCap ag .pre)
      , preAmtOk := qcLeT (qcPreSum ag apps) (2/1000) (qcIvAmtCap ag .pre)
      , postNumOk := qcLe (qcPostCount ag apps : ℚ) (qcIvNumCap ag .post)
      , postAmtOk := qcLeT (qcPostSum ag apps) (2/1000) (qcIvAmtCap ag .post)
      , mriOk := (consecutiveGaps (qcSortedDates apps)).all (fun g =>
          match qcLabelMri ag with
          | none => false
          | some l => decide (l ≤ g))
      , noDupOk := ((apps.map Prod.fst).filter
          (fun d => 1 < (apps.map Prod.fst).count d)).isEmpty
      , phiOk := (apps.map Prod.fst).all
          (fun d => !decide (ag.harvest - P < d ∧ d ≤ ag.harvest))
      , numAppsFieldOk := decide ((apps.map Prod.fst).length = n) } := by
  unfold qcBatchFileRun
  rw [hphi]
  exact if_neg hab

/-- C1 (amended).  Re-validating a completed Scheduler run passes every
check column of the Compliance Validator, PROVIDED the label record is
regular enough that the two programs' disagreeing readings coincide: the
validator's single label MRI (Rate1's pre-emergence MRI, else its
post-emergence MRI) is at least 1 and is a lower bound for every MRI any
tier defines; the scenario is a growing season (0 ≤ emergence < harvest)
whose PHI fits inside it; the annual caps are specified and nonnegative;
the interval amount caps are unspecified (the validator sums rates against
a positional zip of SORTED dates with UNSORTED rates, so per-interval
amount caps can see scrambled sums); interval application-number caps are
nonnegative where specified; and the realized candidate dates lie in the
reference year.  (The unrestricted claim is false: the scheduler enforces
each tier's per-interval MRI but the validator checks every consecutive
gap against tier 1's single label MRI — see the counterexample.) -/
theorem scheduler_validator_roundtrip
    (ag : AgPractices) (mode : DatePrioritization) (streams : ℕ → List Int)
    (s : SchedState) (L P : Int) (A B : ℚ)
    (hrun : assignApplicationDates ag mode streams 366 = .done s)
    (hstr : ∀ k, ∀ d ∈ streams k, 0 ≤ d ∧ d ≤ 364)
    (hLab : qcLabelMri ag = some L) (hL1 : 1 ≤ L) (HM : mriLowerBounds ag L)
    (hPhi : ag.phi = some P) (hPle : P ≤ ag.harvest - ag.emergence)
    (hE0 : 0 ≤ ag.emergence) (hEH : ag.emergence < ag.harvest)
    (hA : ag.maxAnnNumApps = some A) (hA0 : 0 ≤ A)
    (hB : ag.maxAnnAmt = some B) (hB0 : 0 ≤ B)
    (hIvAmt : ∀ iv, ag.ivMaxAmt iv = none)
    (hIvNum : ∀ iv a, ag.ivMaxNumApps iv = some a → 0 ≤ a) :
    qcBatchFileRun ag s.apps s.apps.length = some qcAllTrue := by
  have hM : MasterInv ag L s := by
    unfold assignApplicationDates at hrun
    exact (runPasses_master ag mode streams L hL1 HM hstr 5 0 initSchedState
      (masterInv_init ag L)).2 s hrun
  have hy : appsInYear s := hM.1
  have hsep : appsSeparated L s := hM.2.1
  have hled : ledgerMatches ag s := hM.2.2.1
  have hgood : goodApps ag s := hM.2.2.2.1
  have hcaps : capsOrZero ag s := hM.2.2.2.2
  have hl1 : s.count.total.numApps = s.apps.length := hled.1
  have hl2 : s.count.total.amtApplied = (s.apps.map Prod.snd).sum := hled.2.1
  have hl3 : s.count.pre.numApps = (preApps ag s).length := hled.2.2.1
  have hl5 : s.count.post.numApps = (postApps ag s).length := hled.2.2.2.2.1
  have hA' : (s.apps.length : ℚ) ≤ A := by
    rcases hcaps.1 A hA with h | h
    · rwa [hl1] at h
    · rw [hl1] at h
      rw [h]
      simpa using hA0
  have happs_nonneg : ∀ r ∈ s.apps.map Prod.snd, 0 ≤ r := by
    intro r hr
    rw [List.mem_map] at hr
    obtain ⟨p, hp, rfl⟩ := hr
    exact le_of_lt (hgood p hp).1
  have hB' : (s.apps.map Prod.snd).sum ≤ B := by
    rcases hcaps.2.1 B hB with h | h
    · rwa [hl2] at h
    · rw [hl1] at h
      rw [List.length_eq_zero.1 h]
      simpa using hB0
  have hab : ¬(-366 ≤ ag.harvest - P ∧ ag.harvest - P ≤ -1) := by omega
  have hPreIv : ag.ivMaxNumApps AppInterval.pre = ag.preMaxNumApps := rfl
  have hPostIv : ag.ivMaxNumApps AppInterval.post = ag.postMaxNumApps := rfl
  have hallpost : qcAnyIvMRI ag .pre = false →
      ∀ p ∈ s.apps, getInterval p.1 ag = AppInterval.post := by
    intro hany p hp
    have hg := (hgood p hp).2.2
    cases hiv : getInterval p.1 ag
    · rw [hiv] at hg
      rw [hany] at hg
      simp at hg
    · rfl
  have hallpre : qcAnyIvMRI ag .post = false →
      ∀ p ∈ s.apps, getInterval p.1 ag = AppInterval.pre := by
    intro hany p hp
    have hg := (hgood p hp).2.2
    cases hiv : getInterval p.1 ag
    · rfl
    · rw [hiv] at hg
      rw [hany] at hg
      simp at hg
  have fAnnNum : qcLe ((s.apps.map Prod.fst).length : ℚ) ag.maxAnnNumApps = true := by
    rw [hA]
    simp only [qcLe, List.length_map, decide_eq_true_eq]
    exact hA'
  have fAnnAmt : qcLeT (s.apps.map Prod.snd).sum (2/1000) ag.maxAnnAmt = true := by
    rw [hB]
    simp only [qcLeT, decide_eq_true_eq]
    linarith
  have fPreNum : qcLe (qcPreCount ag s.apps : ℚ) (qcIvNumCap ag .pre) = true := by
    cases hpre : ag.preMaxNumApps with
    | some c =>
      have hcap : qcIvNumCap ag .pre = some c := by
        unfold qcIvNumCap
        rw [hPreIv, hpre]
      rw [hcap]
      simp only [qcLe, decide_eq_true_eq]
      rw [qcPreCount_eq]
      rcases hcaps.2.2 .pre c (by rw [hPreIv]; exact hpre) with h | h
      · rw [← hl3]
        exact h
      · have h0 : (preApps ag s).length = 0 := by rw [← hl3]; exact h
        rw [h0]
        have := hIvNum .pre c (by rw [hPreIv]; exact hpre)
        simpa using this
    | none =>
      cases hany : qcAnyIvMRI ag .pre with
      | true =>
        have hcap : qcIvNumCap ag .pre = ag.maxAnnNumApps := by
          unfold qcIvNumCap
          rw [hPreIv, hpre]
          simp [hany]
        rw [hcap, hA]
        simp only [qcLe, decide_eq_true_eq]
        rw [qcPreCount_eq]
        have hle : (preApps ag s).length ≤ s.apps.length := by
          unfold preApps
          exact List.length_filter_le _ _
        calc ((preApps ag s).length : ℚ) ≤ (s.apps.length : ℚ) := by exact_mod_cast hle
          _ ≤ A := hA'
      | false =>
        have hcap : qcIvNumCap ag .pre = some 0 := by
          unfold qcIvNumCap
          rw [hPreIv, hpre]
          simp [hany]
        rw [hcap]
        simp only [qcLe, decide_eq_true_eq]
        have hemp : preApps ag s = [] := by
          unfold preApps
          rw [List.filter_eq_nil_iff]
          intro p hp
          have := hallpost hany p hp
          simp [this]
        rw [qcPreCount_eq, hemp]
        simp
  have fPostNum : qcLe (qcPostCount ag s.apps : ℚ) (qcIvNumCap ag .post) = true := by
    cases hpost : ag.postMaxNumApps with
    | some c =>
      have hcap : qcIvNumCap ag .post = some c := by
        unfold qcIvNumCap
        rw [hPostIv, hpost]
      rw [hcap]
      simp only [qcLe, decide_eq_true_eq]
      rw [qcPostCount_eq]
      rcases hcaps.2.2 .post c (by rw [hPostIv]; exact hpost) with h | h
      · rw [← hl5]
        exact h
      · have h0 : (postApps ag s).length = 0 := by rw [← hl5]; exact h
        rw [h0]
        have := hIvNum .post c (by rw [hPostIv]; exact hpost)
        simpa using this
    | none =>
      cases hany : qcAnyIvMRI ag .post with
      | true =>
        have hcap : qcIvNumCap ag .post = ag.maxAnnNumApps := by
          unfold qcIvNumCap
          rw [hPostIv, hpost]
          simp [hany]
        rw [hcap, hA]
        simp only [qcLe, decide_eq_true_eq]
        rw [qcPostCount_eq]
        have hle : (postApps ag s).length ≤ s.apps.length := by
          unfold postApps
          exact List.length_filter_le _ _
        calc ((postApps ag s).length : ℚ) ≤ (s.apps.length : ℚ) := by exact_mod_cast hle
          _ ≤ A := hA'
      | false =>
        have hcap : qcIvNumCap ag .post = some 0 := by
          unfold qcIvNumCap
          rw [hPostIv, hpost]
          simp [hany]
        rw [hcap]
        simp only [qcLe, decide_eq_true_eq]
        have hemp : postApps ag s = [] := by
          unfold postApps
          rw [List.filter_eq_nil_iff]
          intro p hp
          have := hallpre hany p hp
          simp [this]
        rw [qcPostCount_eq, hemp]
        simp
  have fPreAmt : qcLeT (qcPreSum ag s.apps) (2/1000) (qcIvAmtCap ag .pre) = true := by
    have hcap0 : qcIvAmtCap ag .pre
        = if qcAnyIvMRI ag .pre then ag.maxAnnAmt else some 0 := by
      unfold qcIvAmtCap
      rw [hIvAmt AppInterval.pre]
    cases hany : qcAnyIvMRI ag .pre with
    | true =>
      rw [hcap0, if_pos hany, hB]
      simp only [qcLeT, decide_eq_true_eq]
      have hsum : qcPreSum ag s.apps ≤ (s.apps.map Prod.snd).sum :=
        zipFilterSumLe (fun d => !qcIsPost ag.emergence ag.harvest d)
          (qcSortedDates s.apps) (s.apps.map Prod.snd) happs_nonneg
      linarith
    | false =>
      have hzero : qcPreSum ag s.apps = 0 := by
        unfold qcPreSum
        have hnil : (qcPairs s.apps).filter
            (fun q => !qcIsPost ag.emergence ag.harvest q.1) = [] := by
          rw [List.filter_eq_nil_iff]
          intro q hq
          obtain ⟨d, r⟩ := q
          obtain ⟨hd, _⟩ := List.of_mem_zip hq
          have hd' : d ∈ s.apps.map Prod.fst := (List.perm_insertionSort _ _).mem_iff.1 hd
          rw [List.mem_map] at hd'
          obtain ⟨p, hp, rfl⟩ := hd'
          have := hallpost hany p hp
          simp [qcIsPost_eq_getInterval, this]
        rw [hnil]
        simp
      have hcap : qcIvAmtCap ag .pre = some 0 := by
        rw [hcap0]
        simp [hany]
      rw [hcap, hzero]
      simp only [qcLeT, decide_eq_true_eq]
      norm_num
  have fPostAmt : qcLeT (qcPostSum ag s.apps) (2/1000) (qcIvAmtCap ag .post) = true := by
    have hcap0 : qcIvAmtCap ag .post
        = if qcAnyIvMRI ag .post then ag.maxAnnAmt else some 0 := by
      unfold qcIvAmtCap
      rw [hIvAmt AppInterval.post]
    cases hany : qcAnyIvMRI ag .post with
    | true =>
      rw [hcap0, if_pos hany, hB]
      simp only [qcLeT, decide_eq_true_eq]
      have hsum : qcPostSum ag s.apps ≤ (s.apps.map Prod.snd).sum :=
        zipFilterSumLe (fun d => qcIsPost ag.emergence ag.harvest d)
          (qcSortedDates s.apps) (s.apps.map Prod.snd) happs_nonneg
      linarith
    | false =>
      have hzero : qcPostSum ag s.apps = 0 := by
        unfold qcPostSum
        have hnil : (qcPairs s.apps).filter
            (fun q => qcIsPost ag.emergence ag.harvest q.1) = [] := by
          rw [List.filter_eq_nil_iff]
          intro q hq
          obtain ⟨d, r⟩ := q
          obtain ⟨hd, _⟩ := List.of_mem_zip hq
          have hd' : d ∈ s.apps.map Prod.fst := (List.perm_insertionSort _ _).mem_iff.1 hd
          rw [List.mem_map] at hd'
          obtain ⟨p, hp, rfl⟩ := hd'
          have := hallpre hany p hp
          simp [qcIsPost_eq_getInterval, this]
        rw [hnil]
        simp
      have hcap : qcIvAmtCap ag .post = some 0 := by
        rw [hcap0]
        simp [hany]
      rw [hcap, hzero]
      simp only [qcLeT, decide_eq_true_eq]
      norm_num
  have fMri : (consecutiveGaps (qcSortedDates s.apps)).all (fun g =>
      match qcLabelMri ag with
      | none => false
      | some l => decide (l ≤ g)) = true := by
    rw [List.all_eq_true]
    intro g hg
    simp only [hLab]
    show decide (L ≤ g) = true
    rw [decide_eq_true_eq]
    have hpairD : (s.apps.map Prod.fst).Pairwise (fun a b => L ≤ |a - b|) :=
      List.pairwise_map.2 hsep
    have hsym : Symmetric (fun a b : ℤ => L ≤ |a - b|) := by
      intro x y h
      rwa [abs_sub_comm]
    have hpairS : (qcSortedDates s.apps).Pairwise (fun a b => L ≤ |a - b|) :=
      ((List.perm_insertionSort _ _).pairwise_iff @hsym).2 hpairD
    exact consecutiveGaps_ge L (qcSortedDates s.apps)
      (List.sorted_insertionSort _ _) hpairS g hg
  have hndD : (s.apps.map Prod.fst).Nodup := by
    rw [List.Nodup, List.pairwise_map]
    refine hsep.imp ?_
    intro p q hpq
    intro heq
    rw [heq] at hpq
    simp at hpq
    omega
  have fNoDup : ((s.apps.map Prod.fst).filter
      (fun d => 1 < (s.apps.map Prod.fst).count d)).isEmpty = true := by
    have h1 := List.nodup_iff_count_le_one.1 hndD
    have hnil : (s.apps.map Prod.fst).filter
        (fun d => 1 < (s.apps.map Prod.fst).count d) = [] := by
      rw [List.filter_eq_nil_iff]
      intro d _
      simp only [decide_eq_true_eq]
      have := h1 d
      omega
    rw [hnil]
    rfl
  have fPhi : (s.apps.map Prod.fst).all
      (fun d => !decide (ag.harvest - P < d ∧ d ≤ ag.harvest)) = true := by
    rw [List.all_eq_true]
    intro d hd
    rw [List.mem_map] at hd
    obtain ⟨p, hp, rfl⟩ := hd
    have hph := (hgood p hp).2.1
    rw [Bool.not_eq_true']
    rw [decide_eq_false_iff_not]
    cases hiv : getInterval p.1 ag with
    | post =>
      rw [hiv] at hph
      simp only [withinPhi] at hph
      have hpi : ag.phiInt = P := by
        unfold AgPractices.phiInt
        rw [hPhi]
        rfl
      rw [hpi] at hph
      exact of_decide_eq_false hph
    | pre =>
      unfold getInterval at hiv
      rw [if_pos hEH] at hiv
      by_cases hin : ag.emergence ≤ p.1 ∧ p.1 ≤ ag.harvest
      · rw [if_pos hin] at hiv
        simp at hiv
      · omega
  have fNumField : decide ((s.apps.map Prod.fst).length = s.apps.length) = true := by
    simp
  rw [qcBatchFileRun_some ag s.apps s.apps.length P hPhi hab]
  refine congrArg some ?_
  unfold qcAllTrue
  rw [fAnnNum, fAnnAmt, fPreNum, fPreAmt, fPostNum, fPostAmt, fMri, fNoDup, fPhi,
    fNumField]

/-- Witness for C1 (amended): the completed `wAg` run on stream [0]
(applications (0,2) and (7,2)) re-validates with every check column True. -/
theorem scheduler_validator_roundtrip_witness :
    qcBatchFileRun wAg wFinal.apps wFinal.apps.length = some qcAllTrue :=
  scheduler_validator_roundtrip wAg .maxRate (fun _ => [0]) wFinal 7 5 2 10
    (by with_unfolding_all decide)
    (by
      intro k d hd
      simp at hd
      subst hd
      exact ⟨le_rfl, by norm_num⟩)
    rfl
    (by decide)
    (by
      intro i iv m h
      fin_cases i <;> cases iv <;>
        simp [wAg, emptyTier, AgPractices.tier, RawTier.ivMRI] at h <;> omega)
    rfl
    (by decide)
    (by decide)
    (by decide)
    rfl
    (by norm_num)
    rfl
    (by norm_num)
    (by intro iv; cases iv <;> rfl)
    (by
      intro iv a h
      cases iv
      · have h2 : (some 2 : Option ℚ) = some a := h
        rw [← Option.some.inj h2]
        norm_num
      · have h2 : (some 2 : Option ℚ) = some a := h
        rw [← Option.some.inj h2]
        norm_num)

/-- C1 counterexample.  The scheduler, whose tier 1 has pre-emergence MRI
30 but post-emergence MRI 5, commits the applications (10, 2) and (15, 2)
(all year is post-emergence, spacing 5 is legal for the scheduler); the
validator then checks the gap 5 against the single label MRI 30 (Rate1's
pre-emergence MRI) and reports the MRI check False — the round trip
fails on the scheduler's own output. -/
theorem scheduler_validator_roundtrip_cex :
    assignApplicationDates cexMriAg .maxRate (fun _ => [10]) 366 = .done cexMriFinal
    ∧ (qcBatchFileRun cexMriAg cexMriFinal.apps cexMriFinal.apps.length).map
        QcChecks.mriOk = some false := by
  constructor
  · with_unfolding_all decide
  · with_unfolding_all decide
